import Mathlib

/-!
A shallow embedding of the python API scanner's cross-file symbol resolution
engine (the `ProjectScanner` of `scanner/__main__.py` and
`scripts/scanner.py`, the `ImportResolver`/`TypeResolver` of
`core/resolver.py`, and the dependency-graph builder of `deps.py`), together
with theorems settling the specification's claims about it.

Python strings are modelled as Lean `String`s; the handful of string
primitives the scanner uses (`split`, `rstrip('/')`, `lstrip('/')`,
substring membership) are re-implemented over `List Char` so that every
definition evaluates inside the kernel.  Python `dict`s (which preserve
insertion order) are modelled as association lists, Python `set`s of
strings as duplicate-free `List String`, and exceptions as `Except`.
-/

namespace ApiViz

/-! ## Character-level string primitives -/

/-- Python `s.split('.')` (splitting on a single-character separator,
here specialised per separator).  The accumulator holds the current
fragment reversed. -/
def splitCharAux (sep : Char) : List Char → List Char → List String
  | [], acc => [String.mk acc.reverse]
  | c :: rest, acc =>
    if c = sep then String.mk acc.reverse :: splitCharAux sep rest []
    else splitCharAux sep rest (c :: acc)

/-- Python `s.split(sep)` for a one-character separator. -/
def splitChar (sep : Char) (s : String) : List String :=
  splitCharAux sep s.data []

/-- Python `s.split('.')`. -/
def splitDot (s : String) : List String := splitChar '.' s

/-- Python `s.split(':')`. -/
def splitColon (s : String) : List String := splitChar ':' s

/-- Python `s.split('/')`. -/
def splitSlash (s : String) : List String := splitChar '/' s

/-- Python `"/".join(parts)` (also `"."`-joins etc.). -/
def joinWith (sep : String) : List String → String
  | [] => ""
  | [x] => x
  | x :: y :: rest => x ++ sep ++ joinWith sep (y :: rest)

/-- The characters of `l` with every trailing `'/'` removed
(Python `s.rstrip('/')`). -/
def dropTrailingSlashes (l : List Char) : List Char :=
  (l.reverse.dropWhile (fun c => c = '/')).reverse

/-- The characters of `l` with every leading `'/'` removed
(Python `s.lstrip('/')`). -/
def dropLeadingSlashes (l : List Char) : List Char :=
  l.dropWhile (fun c => c = '/')

/-- Python `s.rstrip('/')`. -/
def rstripSlash (s : String) : String := String.mk (dropTrailingSlashes s.data)

/-- Python `s.lstrip('/')`. -/
def lstripSlash (s : String) : String := String.mk (dropLeadingSlashes s.data)

/-- Whether `pre` is a prefix of `l`, as a boolean. -/
def isPrefixB : List Char → List Char → Bool
  | [], _ => true
  | _ :: _, [] => false
  | a :: as, b :: bs => a = b && isPrefixB as bs

/-- Whether `needle` occurs as a contiguous substring of `hay`. -/
def isSubstrB (needle : List Char) : List Char → Bool
  | [] => isPrefixB needle []
  | c :: rest => isPrefixB needle (c :: rest) || isSubstrB needle rest

/-- Python `needle in hay` on strings. -/
def pyIn (needle hay : String) : Bool := isSubstrB needle.data hay.data

/-- Python `s.endswith(suffix)`. -/
def pyEndsWith (s suffix : String) : Bool :=
  isPrefixB suffix.data.reverse s.data.reverse

/-- The last element of Python `s.split('.')` (the list is always
nonempty, so the default is never used), i.e. `s.split('.')[-1]`. -/
def lastDotPart (s : String) : String := (splitDot s).getLast?.getD ""

/-- Python truthiness of an `Optional[str]`: `None` and `""` are falsy. -/
def pyStrTruthy : Option String → Bool
  | none => false
  | some s => !(s = "")

/-! ## Data model (`core/models.py` / the data classes of `scripts/scanner.py`)

The field `pfx` models the python attribute `prefix` (that spelling is not
usable as a Lean identifier here). -/

/-- `SchemaField`: one declared model field. -/
structure SchemaField where
  name : String
  type_name : String
  required : Bool
deriving DecidableEq

/-- One entry of a dependency category list: the dict
`{"module": .., "moduleLabel": .., "type": .., "items": .., "count": ..}`
built by `_add_dep`. -/
structure DepGroup where
  module : String
  moduleLabel : String
  type : String
  items : List String
  count : Nat
deriving DecidableEq

/-- `RouteDef.dependencies`: a dict with four category lists, two flat
lists, and the `"grouped"` key which is absent until `_finalize_route`
adds it (modelled as an `Option`). -/
structure Dependencies where
  services : List DepGroup
  database : List DepGroup
  external : List DepGroup
  utilities : List DepGroup
  tables : List String
  apiCalls : List String
  grouped : Option (List DepGroup) := none
deriving DecidableEq

/-- The freshly initialised `dependencies` dict of `RouteDef.__init__`. -/
def Dependencies.empty : Dependencies :=
  { services := [], database := [], external := [], utilities := []
    tables := [], apiCalls := [], grouped := none }

/-- `RouteDef`.  `function_name` exists only in the modular scanner's
`RouteDef` (`core/models.py`); the monolithic `scripts/scanner.py` variant
has no such attribute and its `to_dict` does not emit it. -/
structure RouteDef where
  path : String
  method : String
  router_var : String
  lineno : Nat
  file_path : String
  full_path : String := ""
  function_name : Option String := none
  dependencies : Dependencies := Dependencies.empty
  request_schema : List SchemaField := []
  response_schema : List SchemaField := []
  request_model_name : Option String := none
  response_model_name : Option String := none
deriving DecidableEq

/-- `IncludeDef`: one `include_router` call recorded on a router. -/
structure IncludeDef where
  router_var : String
  pfx : String := ""
deriving DecidableEq

/-- `RouterDef`. -/
structure RouterDef where
  var_name : String
  pfx : String := ""
  model_name : Option String := none
  parent_var : Option String := none
  includes_children : Bool := false
  includes : List IncludeDef := []
  routes : List RouteDef := []
  list_schema : Option String := none
  retrieve_schema : Option String := none
  create_schema : Option String := none
  update_schema : Option String := none
  delete_schema : Option String := none
deriving DecidableEq

/-- The value of `FileData.models[name]`: the dict
`{"fields": .., "bases": ..}` built by `visit_ClassDef`. -/
structure ModelDef where
  fields : List SchemaField
  bases : List String
deriving DecidableEq

/-- `FileData`: the per-file facts.  Python dicts preserve insertion
order, so each dict is an association list (keys unique in any state the
scanner actually builds). -/
structure FileData where
  file_path : String
  imports : List (String × String) := []
  routers : List (String × RouterDef) := []
  app_var : Option String := none
  models : List (String × ModelDef) := []
  constants : List (String × String) := []
deriving DecidableEq

/-- The fact store `ProjectScanner.files`: normalized relative path →
`FileData`, in insertion order. -/
abbrev Store := List (String × FileData)

/-- Python `d[k]` / `d.get(k)` on an insertion-ordered dict. -/
def alistGet {α : Type} (l : List (String × α)) (k : String) : Option α :=
  (l.find? (fun p => p.1 = k)).map Prod.snd

/-- Python `k in d`. -/
def alistHas {α : Type} (l : List (String × α)) (k : String) : Bool :=
  (alistGet l k).isSome

/-- `self.files[k]`. -/
def lookupFD (files : Store) (k : String) : Option FileData := alistGet files k

/-- The identity of one `RouteDef` object: the file key and router
variable it is stored under, plus its index in that router's `routes`
list.  Python passes the objects around by reference and mutates their
derived fields in place; the Lean model threads a `Store` and addresses
each route by this identity. -/
abbrev RouteId := String × String × Nat

/-- Read the route object `files[fk].routers[rv].routes[i]`. -/
def getRoute (files : Store) (rid : RouteId) : Option RouteDef := do
  let fd ← lookupFD files rid.1
  let r ← alistGet fd.routers rid.2.1
  r.routes.get? rid.2.2

/-- A placeholder used only to totalise lookups that cannot fail on the
states the scanner reaches. -/
def defaultRoute : RouteDef :=
  { path := "", method := "", router_var := "", lineno := 0, file_path := "" }

/-- `getRoute` with the unreachable default. -/
def getRouteD (files : Store) (rid : RouteId) : RouteDef :=
  (getRoute files rid).getD defaultRoute

/-- Replace the route at index `i` (identity elsewhere). -/
def routeListUpd (f : RouteDef → RouteDef) : Nat → List RouteDef → List RouteDef
  | _, [] => []
  | 0, r :: rest => f r :: rest
  | i + 1, r :: rest => r :: routeListUpd f i rest

/-- Apply the route mutation inside the addressed router entry. -/
def routerUpd (rid : RouteId) (f : RouteDef → RouteDef) (q : String × RouterDef) :
    String × RouterDef :=
  if q.1 = rid.2.1 then (q.1, { q.2 with routes := routeListUpd f rid.2.2 q.2.routes })
  else q

/-- Apply the route mutation inside the addressed file entry. -/
def fileUpd (rid : RouteId) (f : RouteDef → RouteDef) (p : String × FileData) :
    String × FileData :=
  if p.1 = rid.1 then (p.1, { p.2 with routers := p.2.routers.map (routerUpd rid f) })
  else p

/-- In-place mutation of the route object addressed by `rid` (Python
assigns to attributes of the shared `RouteDef`). -/
def updateRoute (files : Store) (rid : RouteId) (f : RouteDef → RouteDef) : Store :=
  files.map (fileUpd rid f)

/-! ## Import resolver (`core/resolver.py`, `ImportResolver.resolve_module`)

The python method also receives `current_file`, which it never uses; the
parameter is omitted.  The descending loop `for i in range(len(parts), 0, -1)`
is the countdown recursion `resolveModuleAux`. -/

/-- The single-file candidate `"/".join(parts[:i]) + ".py"`. -/
def relForm (parts : List String) (i : Nat) : String :=
  joinWith "/" (parts.take i) ++ ".py"

/-- The package candidate `"/".join(parts[:i]) + "/__init__.py"`. -/
def initForm (parts : List String) (i : Nat) : String :=
  joinWith "/" (parts.take i) ++ "/__init__.py"

/-- The loop body of `resolve_module`: try prefix lengths `i, i-1, ..., 1`. -/
def resolveModuleAux (files : Store) (parts : List String) : Nat → Option String × Option String
  | 0 => (none, none)
  | i + 1 =>
    let member := (parts.drop (i + 1)).head?
    if alistHas files (relForm parts (i + 1)) then (some (relForm parts (i + 1)), member)
    else if alistHas files (initForm parts (i + 1)) then (some (initForm parts (i + 1)), member)
    else resolveModuleAux files parts i

/-- `ImportResolver.resolve_module` of `core/resolver.py` (the
`scripts/scanner.py` copy lacks only the leading `if not module_str`
guard, which no scanner-produced import string can trigger). -/
def resolve_module (files : Store) (module_str : String) : Option String × Option String :=
  if module_str = "" then (none, none)
  else
    let parts := splitDot module_str
    resolveModuleAux files parts parts.length

/-! ## Type resolver (`core/resolver.py`, `TypeResolver.find_model_fields`) -/

/-- One step of the dict comprehension `{f.name: f for f in fields}`:
a later duplicate key overwrites the value but keeps the first position. -/
def dictInsertField (fields : List (String × SchemaField)) (f : SchemaField) :
    List (String × SchemaField) :=
  if fields.any (fun p => p.1 = f.name) then
    fields.map (fun p => if p.1 = f.name then (p.1, f) else p)
  else fields ++ [(f.name, f)]

/-- The dict comprehension `{f.name: f for f in model_def['fields']}`. -/
def fieldsDict (fs : List SchemaField) : List (String × SchemaField) :=
  fs.foldl dictInsertField []

/-- The base-class markers of
`any(x in base for x in ["BaseModel", "SQLModel", "Schema", "Model"])`. -/
def recognizedModelBase (b : String) : Bool :=
  pyIn "BaseModel" b || pyIn "SQLModel" b || pyIn "Schema" b || pyIn "Model" b

/-- Add one inherited field: `if bf.name not in fields: fields[bf.name] = bf`. -/
def addBaseField (fields : List (String × SchemaField)) (bf : SchemaField) :
    List (String × SchemaField) :=
  if fields.any (fun p => p.1 = bf.name) then fields else fields ++ [(bf.name, bf)]

/-- `TypeResolver.find_model_fields`, made total with a fuel argument.
The python recursion is bounded because every call adds the pair
`(file_path, model_name)` to `visited` (the local-inheritance branch
passes `visited.copy()`, the imported branch passes the set itself; with
immutable values both are just `visited'`), and only pairs whose name is
a model or import key recurse further; `find_model_fields` below
instantiates the fuel with that bound. -/
def findModelFieldsFuel (files : Store) :
    Nat → FileData → String → List (String × String) → List SchemaField
  | 0, _, _, _ => []
  | fuel + 1, fd, model_name, visited =>
    if (fd.file_path, model_name) ∈ visited then []
    else
      let visited' := visited ++ [(fd.file_path, model_name)]
      match alistGet fd.models model_name with
      | some model_def =>
        let fields1 := model_def.bases.foldl (fun fields base =>
          if recognizedModelBase base then
            (findModelFieldsFuel files fuel fd base visited').foldl addBaseField fields
          else fields) (fieldsDict model_def.fields)
        fields1.map Prod.snd
      | none =>
        match alistGet fd.imports model_name with
        | some imp_str =>
          match resolve_module files imp_str with
          | (some target_file, target_member) =>
            if target_file = "" then [] else
            match lookupFD files target_file with
            | some tfd =>
              let target_name := match target_member with
                | some m => if m = "" then model_name else m
                | none => model_name
              findModelFieldsFuel files fuel tfd target_name visited'
            | none => []
          | (none, _) => []
        | none => []

/-- A fuel value sufficient for every reachable chain of
`(file, model-or-import name)` pairs. -/
def totalModelFuel (files : Store) : Nat :=
  (files.map (fun p => p.2.models.length + p.2.imports.length)).sum + 1

/-- `TypeResolver.find_model_fields(file_data, model_name)` with the
default `visited=None` (fresh empty set). -/
def find_model_fields (files : Store) (fd : FileData) (model_name : String) :
    List SchemaField :=
  findModelFieldsFuel files (totalModelFuel files) fd model_name []

/-! ## Lemmas about the import resolver -/

/-- `FileData` with every fact empty, used to build concrete stores. -/
def fdOf (k : String) : FileData := { file_path := k }

theorem resolveModuleAux_skip (files : Store) (parts : List String) :
    ∀ n i, i ≤ n →
    (∀ j, i < j → j ≤ n → ¬ alistHas files (relForm parts j) ∧
      ¬ alistHas files (initForm parts j)) →
    resolveModuleAux files parts n = resolveModuleAux files parts i := by
  intro n
  induction n with
  | zero => intro i hi _; interval_cases i; rfl
  | succ m ih =>
    intro i hi hmiss
    rcases Nat.eq_or_lt_of_le hi with h | h
    · rw [h]
    · have hm : i ≤ m := Nat.lt_succ_iff.mp h
      have hj := hmiss (m + 1) (Nat.lt_succ_of_le hm) le_rfl
      rw [resolveModuleAux]
      simp only [hj.1, hj.2, if_false]
      exact ih i hm (fun j h1 h2 => hmiss j h1 (Nat.le_succ_of_le h2))

/-- C3, counterexample.  With known file `a/b.py`, resolving
`"a.b.c.Widget"` matches the prefix `a.b` and two parts remain, but the
code returns only the first remaining part `"c"` as the member
(`member_parts[0]`), not the remaining-parts chain `"c.Widget"` the claim
describes. -/
theorem C3_counterexample :
    resolve_module [("a/b.py", fdOf "a/b.py")] "a.b.c.Widget"
        = (some "a/b.py", some "c")
      ∧ some "c" ≠ some (joinWith "." ((splitDot "a.b.c.Widget").drop 2)) :=
  ⟨by decide, by decide⟩

/-- C3 (amended: the member is the *first* remaining part after the
matched prefix, later parts are dropped).  For every store and nonempty
reference: prefixes are scanned from longest to shortest; at the longest
length `i` at which either form matches, the `<prefix>.py` form is
preferred over `<prefix>/__init__.py`, the result is that file key
together with the first remaining part (absent when none remain); when no
length matches at all the result is fully absent.  The `a/b.py` vs
`a/b/c.py` instance resolves `"a.b.c.Widget"` to `a/b/c.py` with member
`Widget`. -/
theorem C3_resolver :
    (∀ (files : Store) (s : String) (i : Nat), s ≠ "" →
      1 ≤ i → i ≤ (splitDot s).length →
      (∀ j, i < j → j ≤ (splitDot s).length →
        ¬ alistHas files (relForm (splitDot s) j) ∧
        ¬ alistHas files (initForm (splitDot s) j)) →
      (alistHas files (relForm (splitDot s) i) →
        resolve_module files s
          = (some (relForm (splitDot s) i), ((splitDot s).drop i).head?))
      ∧ (¬ alistHas files (relForm (splitDot s) i) →
         alistHas files (initForm (splitDot s) i) →
        resolve_module files s
          = (some (initForm (splitDot s) i), ((splitDot s).drop i).head?)))
  ∧ (∀ (files : Store) (s : String), s ≠ "" →
      (∀ j, 1 ≤ j → j ≤ (splitDot s).length →
        ¬ alistHas files (relForm (splitDot s) j) ∧
        ¬ alistHas files (initForm (splitDot s) j)) →
      resolve_module files s = (none, none))
  ∧ resolve_module [("a/b.py", fdOf "a/b.py"), ("a/b/c.py", fdOf "a/b/c.py")]
      "a.b.c.Widget" = (some "a/b/c.py", some "Widget") := by
  refine ⟨?_, ?_, by decide⟩
  · intro files s i hs h1 hlen hmiss
    obtain ⟨k, rfl⟩ : ∃ k, i = k + 1 := ⟨i - 1, by omega⟩
    have hskip := resolveModuleAux_skip files (splitDot s) (splitDot s).length
      (k + 1) hlen hmiss
    constructor
    · intro hfile
      simp only [resolve_module, if_neg hs]
      rw [hskip, resolveModuleAux]
      simp [hfile]
    · intro hnof hini
      simp only [resolve_module, if_neg hs]
      rw [hskip, resolveModuleAux]
      simp [hnof, hini]
  · intro files s hs hmiss
    simp only [resolve_module, if_neg hs]
    rw [resolveModuleAux_skip files (splitDot s) (splitDot s).length 0
      (Nat.zero_le _) (fun j h1 h2 => hmiss j h1 h2)]
    rfl

/-- Witness for C3: the amended theorem applied to the concrete store
`{a/b.py}` and reference `"a.b.c"`. -/
theorem C3_resolver_witness :
    resolve_module [("a/b.py", fdOf "a/b.py")] "a.b.c"
      = (some "a/b.py", some "c") := by
  have h := (C3_resolver.1 [("a/b.py", fdOf "a/b.py")] "a.b.c" 2 (by decide)
      (by decide) (by decide) ?_).1 (by decide)
  · exact h
  · intro j h1 h2
    have hlen : (splitDot "a.b.c").length = 3 := by decide
    rw [hlen] at h2
    have hj : j = 3 := by omega
    subst hj
    exact ⟨by decide, by decide⟩

/-! ## The Pass-B path join

`_resolve_router` combines prefixes with
`(left.rstrip('/') + '/' + right.lstrip('/')).rstrip('/')`; when a
route's full path is assigned, an empty result is normalized to `"/"`
(`route.full_path = full or "/"`). -/

/-- `(a.rstrip('/') + '/' + b.lstrip('/')).rstrip('/')`. -/
def combinePfx (a b : String) : String :=
  rstripSlash (rstripSlash a ++ "/" ++ lstripSlash b)

/-- The join including the `or "/"` normalization used for route full
paths (and the spec's definition of the join operation). -/
def joinPath (a b : String) : String :=
  let j := combinePfx a b
  if j = "" then "/" else j

/-- Whether a character list contains two consecutive slashes. -/
def noDoubleSlashChars : List Char → Bool
  | [] => true
  | [_] => true
  | a :: b :: rest => !((a == '/') && (b == '/')) && noDoubleSlashChars (b :: rest)

/-- Whether a string is free of doubled slashes. -/
def noDoubleSlash (s : String) : Bool := noDoubleSlashChars s.data

theorem noDoubleSlashChars_cons {c : Char} {l : List Char}
    (h : noDoubleSlashChars (c :: l) = true) : noDoubleSlashChars l = true := by
  cases l with
  | nil => rfl
  | cons d t =>
    simp only [noDoubleSlashChars, Bool.and_eq_true] at h
    exact h.2

theorem noDoubleSlashChars_append_left {a b : List Char}
    (h : noDoubleSlashChars (a ++ b) = true) : noDoubleSlashChars a = true := by
  induction a with
  | nil => rfl
  | cons x a' ih =>
    cases a' with
    | nil => rfl
    | cons y t =>
      simp only [List.cons_append, noDoubleSlashChars, Bool.and_eq_true] at h ⊢
      exact ⟨h.1, ih (by simpa [noDoubleSlashChars, Bool.and_eq_true] using h.2)⟩

theorem noDoubleSlashChars_append_right {a b : List Char}
    (h : noDoubleSlashChars (a ++ b) = true) : noDoubleSlashChars b = true := by
  induction a with
  | nil => simpa using h
  | cons x a' ih => exact ih (noDoubleSlashChars_cons (l := a' ++ b) (by simpa using h))

theorem head?_dropWhile_false {p : Char → Bool} {l : List Char} {c : Char}
    (h : (l.dropWhile p).head? = some c) : p c = false := by
  induction l with
  | nil => simp at h
  | cons x t ih =>
    by_cases hx : p x = true
    · rw [List.dropWhile_cons_of_pos hx] at h
      exact ih h
    · rw [List.dropWhile_cons_of_neg hx] at h
      simp only [List.head?_cons, Option.some.injEq] at h
      subst h
      simpa using hx

theorem dropTrailingSlashes_decomp (l : List Char) :
    l = dropTrailingSlashes l ++ ((l.reverse.takeWhile (fun c => c = '/')).reverse) := by
  unfold dropTrailingSlashes
  conv_lhs => rw [← List.reverse_reverse l, ← List.takeWhile_append_dropWhile
    (p := fun c => decide (c = '/')) (l := l.reverse)]
  rw [List.reverse_append]

theorem noDS_dropTrailing {l : List Char} (h : noDoubleSlashChars l = true) :
    noDoubleSlashChars (dropTrailingSlashes l) = true := by
  have := dropTrailingSlashes_decomp l
  rw [this] at h
  exact noDoubleSlashChars_append_left h

theorem noDS_dropLeading {l : List Char} (h : noDoubleSlashChars l = true) :
    noDoubleSlashChars (dropLeadingSlashes l) = true := by
  unfold dropLeadingSlashes
  conv at h => rw [← List.takeWhile_append_dropWhile
    (p := fun c => decide (c = '/')) (l := l)]
  exact noDoubleSlashChars_append_right h

theorem getLast?_dropTrailing (l : List Char) :
    (dropTrailingSlashes l).getLast? ≠ some '/' := by
  unfold dropTrailingSlashes
  rw [List.getLast?_reverse]
  intro hcon
  have := head?_dropWhile_false hcon
  simp at this

theorem head?_dropLeading (l : List Char) :
    (dropLeadingSlashes l).head? ≠ some '/' := by
  intro hcon
  have := head?_dropWhile_false hcon
  simp at this

theorem noDS_seam {x y : List Char} (hx : noDoubleSlashChars x = true)
    (hy : noDoubleSlashChars y = true) (hlast : x.getLast? ≠ some '/')
    (hhead : y.head? ≠ some '/') :
    noDoubleSlashChars (x ++ '/' :: y) = true := by
  induction x with
  | nil =>
    cases y with
    | nil => rfl
    | cons c t =>
      simp only [List.nil_append, noDoubleSlashChars, Bool.and_eq_true]
      refine ⟨?_, hy⟩
      simp only [List.head?_cons, ne_eq, Option.some.injEq] at hhead
      simp [hhead]
  | cons a x' ih =>
    cases x' with
    | nil =>
      simp only [List.getLast?_singleton, ne_eq, Option.some.injEq] at hlast
      simp only [List.cons_append, List.nil_append, noDoubleSlashChars,
        Bool.and_eq_true]
      refine ⟨by simp [hlast], ?_⟩
      have := ih (by rfl) (by simp)
      simpa using this
    | cons b t =>
      simp only [List.cons_append, noDoubleSlashChars, Bool.and_eq_true] at hx ⊢
      refine ⟨hx.1, ?_⟩
      have hl : (b :: t).getLast? ≠ some '/' := by
        rwa [List.getLast?_cons_cons] at hlast
      have := ih hx.2 hl
      simpa using this

theorem noDS_combinePfx {a b : String} (ha : noDoubleSlash a = true)
    (hb : noDoubleSlash b = true) : noDoubleSlash (combinePfx a b) = true := by
  unfold noDoubleSlash combinePfx rstripSlash lstripSlash
  apply noDS_dropTrailing
  have hdata : ((String.mk (dropTrailingSlashes a.data) ++ "/" ++
      String.mk (dropLeadingSlashes b.data)).data)
      = dropTrailingSlashes a.data ++ '/' :: dropLeadingSlashes b.data := by
    simp [String.data_append]
  rw [hdata]
  exact noDS_seam (noDS_dropTrailing ha) (noDS_dropLeading hb)
    (getLast?_dropTrailing _) (head?_dropLeading _)

/-- C2, counterexample.  The join does not remove doubled slashes already
inside an operand: `join("/a//b", "c")` is `"/a//b/c"`, which contains
`"//"`.  The claim's universal "no doubled slashes for all prefix pairs"
fails. -/
theorem C2_counterexample :
    joinPath "/a//b" "c" = "/a//b/c"
      ∧ noDoubleSlash (joinPath "/a//b" "c") = false
      ∧ pyIn "//" (joinPath "/a//b" "c") = true :=
  ⟨by decide, by decide, by decide⟩

/-- C2 (amended: restricted to operands that are themselves free of
doubled slashes).  For all such prefix strings `a` and `b`, the Pass-B
join (strip trailing slashes on the left, leading slashes on the right,
join with one slash, final `rstrip('/')`, empty normalized to `"/"`)
yields a string with no doubled slashes; and `join("", "")` is `"/"`. -/
theorem C2_join :
    (∀ a b : String, noDoubleSlash a = true → noDoubleSlash b = true →
      noDoubleSlash (joinPath a b) = true)
  ∧ joinPath "" "" = "/" := by
  constructor
  · intro a b ha hb
    unfold joinPath
    by_cases h : combinePfx a b = ""
    · simp only [h, if_pos]
      decide
    · simp only [h, if_false]
      exact noDS_combinePfx ha hb
  · decide

/-- Witness for C2: the amended join property at `("/api/", "//users")`. -/
theorem C2_join_witness :
    noDoubleSlash (joinPath "/api/" "/users") = true
      ∧ joinPath "/api/" "/users" = "/api/users" :=
  ⟨C2_join.1 "/api/" "/users" (by decide) (by decide), by decide⟩

/-! ## Lemmas and theorems about the type resolver (C4) -/

theorem two_mem_length {α : Type} {l : List α} {a b : α}
    (ha : a ∈ l) (hb : b ∈ l) (hne : a ≠ b) : 2 ≤ l.length := by
  induction l with
  | nil => simp at ha
  | cons x t ih =>
    rcases List.mem_cons.mp ha with rfl | ha'
    · rcases List.mem_cons.mp hb with rfl | hb'
      · exact absurd rfl hne
      · have : 1 ≤ t.length := List.length_pos_of_mem hb'
        simp only [List.length_cons]
        omega
    · rcases List.mem_cons.mp hb with rfl | hb'
      · have : 1 ≤ t.length := List.length_pos_of_mem ha'
        simp only [List.length_cons]
        omega
      · have := ih ha' hb'
        simp only [List.length_cons]
        omega

theorem two_keys_length {α : Type} {l : List (String × α)} {k1 k2 : String}
    {v1 v2 : α} (h1 : alistGet l k1 = some v1) (h2 : alistGet l k2 = some v2)
    (hne : k1 ≠ k2) : 2 ≤ l.length := by
  unfold alistGet at h1 h2
  rcases hf1 : l.find? (fun p => p.1 = k1) with _ | p1
  · rw [hf1] at h1; simp at h1
  rcases hf2 : l.find? (fun p => p.1 = k2) with _ | p2
  · rw [hf2] at h2; simp at h2
  have m1 := List.mem_of_find?_eq_some hf1
  have m2 := List.mem_of_find?_eq_some hf2
  have e1 := List.find?_some hf1
  have e2 := List.find?_some hf2
  simp only [decide_eq_true_eq] at e1 e2
  exact two_mem_length m1 m2 (by
    intro hcon
    exact hne (by rw [← e1, hcon, e2]))

theorem fuel_of_two_models {files : Store} {fd : FileData}
    (hmem : fd ∈ files.map Prod.snd) (hlen : 2 ≤ fd.models.length) :
    ∃ g, totalModelFuel files = g + 2 := by
  unfold totalModelFuel
  have hx : fd.models.length + fd.imports.length ∈
      files.map (fun p => p.2.models.length + p.2.imports.length) := by
    rcases List.mem_map.mp hmem with ⟨p, hp, rfl⟩
    exact List.mem_map.mpr ⟨p, hp, rfl⟩
  have hle := List.single_le_sum (l := files.map
    (fun p => p.2.models.length + p.2.imports.length))
    (fun x _ => Nat.zero_le x) _ hx
  refine ⟨(files.map (fun p => p.2.models.length + p.2.imports.length)).sum - 1, by omega⟩

/-- C4 (confirmed).  For every fact store: `find_model_fields` on a model
`Child` with own field list `[cx]` and recognized base `Parent` (in the
same file) with field list `[px, py]`, where `px` collides with `cx` on
name and `py` does not, returns exactly `[cx, py]` — the own field wins
the collision, own fields come first in declaration order, then the
base's non-shadowed fields in the base's declared order. -/
theorem C4_inheritance (files : Store) (fd : FileData)
    (childName parentName : String) (cx px py : SchemaField)
    (hmem : fd ∈ files.map Prod.snd)
    (hChild : alistGet fd.models childName = some ⟨[cx], [parentName]⟩)
    (hParent : alistGet fd.models parentName = some ⟨[px, py], []⟩)
    (hRec : recognizedModelBase parentName = true)
    (hne : childName ≠ parentName)
    (hcol : px.name = cx.name)
    (hdiff : py.name ≠ cx.name) :
    find_model_fields files fd childName = [cx, py] := by
  obtain ⟨g, hg⟩ := fuel_of_two_models hmem
    (two_keys_length hChild hParent hne)
  unfold find_model_fields
  rw [hg]
  have hne' : ¬ parentName = childName := fun h => hne h.symm
  simp [findModelFieldsFuel, hChild, hParent, hRec, fieldsDict, dictInsertField,
    addBaseField, hne', hcol, hdiff, Ne.symm hdiff]

/-- A concrete file for the C4 witness: `Child(x)` inheriting from
`ParentModel(x, y)` in the same file. -/
def c4fd : FileData :=
  { file_path := "m.py"
    models := [("Child", ⟨[⟨"x", "int", true⟩], ["ParentModel"]⟩),
               ("ParentModel", ⟨[⟨"x", "str", true⟩, ⟨"y", "str", false⟩], []⟩)] }

/-- Witness for C4: the theorem applied to the concrete `Child`/`ParentModel`
store; the own `x` wins and the inherited `y` follows. -/
theorem C4_inheritance_witness :
    find_model_fields [("m.py", c4fd)] c4fd "Child"
      = [⟨"x", "int", true⟩, ⟨"y", "str", false⟩] :=
  C4_inheritance [("m.py", c4fd)] c4fd "Child" "ParentModel"
    ⟨"x", "int", true⟩ ⟨"x", "str", true⟩ ⟨"y", "str", false⟩
    (by decide) (by decide) (by decide) (by decide) (by decide) (by decide)
    (by decide)

/-! ## `ProjectScanner` (`scanner/__main__.py`; `scripts/scanner.py` is
line-identical in the hierarchy/resolve phase)

Python passes `FileData`/`RouterDef` objects by reference and mutates the
shared `RouteDef` objects in place.  The model addresses every router by
the store key and router-dict key it is reachable under, reads the current
object value from the threaded `Store` at each use (updates never touch
the fields being read except the route fields, exactly as in python), and
performs mutations through `updateRoute`. -/

/-- `ProjectScanner._resolve_local_var`: the FQID of a local or imported
variable (`file:var`). -/
def resolve_local_var (files : Store) (fd : FileData) (var_name : String) : String :=
  if alistHas fd.routers var_name then fd.file_path ++ ":" ++ var_name
  else
    match alistGet fd.imports var_name with
    | some imp =>
      match resolve_module files imp with
      | (some fpath, member) =>
        if fpath = "" then fd.file_path ++ ":" ++ var_name
        else
          let target_name := match member with
            | some m => if m = "" then lastDotPart imp else m
            | none => lastDotPart imp
          fpath ++ ":" ++ target_name
      | (none, _) => fd.file_path ++ ":" ++ var_name
    | none => fd.file_path ++ ":" ++ var_name

/-- `self.parent_child[parent_id].append(child_id)` with the
`if parent_id not in self.parent_child: ... = []` initialisation. -/
def pcAppend (pc : List (String × List String)) (k v : String) :
    List (String × List String) :=
  if alistHas pc k then pc.map (fun p => if p.1 = k then (p.1, p.2 ++ [v]) else p)
  else pc ++ [(k, [v])]

/-- Phase 2 of `ProjectScanner.scan`: build the global parent → children
map from every router that has a truthy `parent_var`. -/
def buildHierarchy (files : Store) : List (String × List String) :=
  files.foldl (fun pc p =>
    p.2.routers.foldl (fun pc q =>
      match q.2.parent_var with
      | some pv =>
        if pv = "" then pc
        else pcAppend pc (resolve_local_var files p.2 pv)
          (p.2.file_path ++ ":" ++ q.2.var_name)
      | none => pc) pc) []

/-- `ProjectScanner._resolve_router_ref`, returning the store address
(file key, router key) of the target instead of the python object pair;
the traversal reads the current objects from the store at that address,
which is python's object identity. -/
def resolve_router_ref (files : Store) (fk : String) (fd : FileData)
    (router_var : String) : Option (String × String) :=
  if alistHas fd.routers router_var then some (fk, router_var)
  else
    match alistGet fd.imports router_var with
    | some imp =>
      match resolve_module files imp with
      | (some fpath, member) =>
        if fpath = "" then none
        else
          match lookupFD files fpath with
          | some target_fd =>
            let target_name := match member with
              | some m => if m = "" then lastDotPart imp else m
              | none => lastDotPart imp
            if alistHas target_fd.routers target_name then some (fpath, target_name)
            else none
          | none => none
      | (none, _) => none
    | none => none

/-- The traversal state: the (mutated) fact store plus the `endpoints`
list of emitted route objects (by identity). -/
structure RState where
  files : Store
  endpoints : List RouteId
deriving DecidableEq

/-- `ProjectScanner._finalize_route`.  The `none` branch of the
route lookup is unreachable (python holds the route object itself);
`self.files[route.file_path]` raising `KeyError` is the `Except.error`. -/
def finalize_route (files : Store) (rid : RouteId) : Except String Store :=
  match getRoute files rid with
  | none => Except.ok files
  | some route =>
    match lookupFD files route.file_path with
    | none => Except.error "KeyError: route.file_path not in self.files"
    | some fd =>
      let deps := route.dependencies
      let g := deps.services ++ deps.database ++ deps.external ++ deps.utilities
      let route1 := { route with dependencies := { deps with grouped := some g } }
      let rdef := alistGet fd.routers route1.router_var
      let route2 :=
        if !(pyStrTruthy route1.request_model_name) then
          match rdef with
          | some rd =>
            if route1.method = "POST" && route1.path = "/" then
              { route1 with request_model_name := rd.create_schema }
            else if route1.method = "PUT" && route1.path = "/{id}" then
              { route1 with request_model_name := rd.update_schema }
            else route1
          | none => route1
        else route1
      let route3 :=
        if !(pyStrTruthy route2.response_model_name) then
          match rdef with
          | some rd =>
            if route2.method = "GET" && route2.path = "/" then
              { route2 with response_model_name := rd.list_schema }
            else if route2.method = "GET" && route2.path = "/{id}" then
              { route2 with response_model_name := rd.retrieve_schema }
            else route2
          | none => route2
        else route2
      let route4 :=
        if pyStrTruthy route3.request_model_name then
          { route3 with request_schema :=
            find_model_fields files fd (route3.request_model_name.getD "") }
        else route3
      let route5 :=
        if pyStrTruthy route4.response_model_name then
          { route4 with response_schema :=
            find_model_fields files fd (route4.response_model_name.getD "") }
        else route4
      Except.ok (updateRoute files rid (fun _ => route5))

/-- The route-emission loop of `_resolve_router` (`for route in r.routes`):
assign `full_path = join(current_prefix, route.path) or "/"`, finalize,
append to `endpoints`. -/
def emitRoutes (cur : String) (fk vn : String) :
    List Nat → RState → Except String RState
  | [], st => Except.ok st
  | i :: rest, st =>
    match finalize_route (updateRoute st.files (fk, vn, i)
        (fun r => { r with full_path := joinPath cur r.path })) (fk, vn, i) with
    | Except.error e => Except.error e
    | Except.ok files2 =>
      emitRoutes cur fk vn rest
        { files := files2, endpoints := st.endpoints ++ [(fk, vn, i)] }

/-- The three mutually recursive loops of `_resolve_router` (the body
itself, its manual-include loop, and its magic-children loop), fused into
one fuel-indexed interpreter so that the recursion is structural on the
fuel and evaluates inside the kernel. -/
inductive RCall where
  | router (fk vn : String) (pfx : String) (lvl : Nat)
  | incs (fk : String) (todo : List IncludeDef) (cur : String) (lvl : Nat)
  | children (todo : List String) (cur : String) (lvl : Nat)

/-- `ProjectScanner._resolve_router`, as a fuel-indexed interpreter over
`RCall`.  `pc` is `self.parent_child`, `gic` is
`self.global_includes_children`, `visited` the per-entry-point cycle
guard.  Fuel exhaustion is the distinguished error `"out of fuel"`;
`passBFuel` below always avoids it. -/
def interp (pc : List (String × List String)) (gic : List String) :
    Nat → RCall → List String → RState → Except String (RState × List String)
  | 0, _, _, _ => Except.error "out of fuel"
  | fuel + 1, RCall.router fk vn pfx lvl, visited, st =>
    match lookupFD st.files fk with
    | none => Except.ok (st, visited)
    | some fd =>
      match alistGet fd.routers vn with
      | none => Except.ok (st, visited)
      | some r =>
        let router_id := fd.file_path ++ ":" ++ r.var_name
        if router_id ∈ visited then Except.ok (st, visited)
        else
          let visited1 := visited ++ [router_id]
          let cur := combinePfx pfx r.pfx
          match emitRoutes cur fk vn (List.range r.routes.length) st with
          | Except.error e => Except.error e
          | Except.ok st1 =>
            match interp pc gic fuel (RCall.incs fk r.includes cur lvl) visited1 st1 with
            | Except.error e => Except.error e
            | Except.ok (st2, visited2) =>
              if (r.includes_children || decide (router_id ∈ gic))
                  && alistHas pc router_id then
                interp pc gic fuel
                  (RCall.children ((alistGet pc router_id).getD []) cur lvl)
                  visited2 st2
              else Except.ok (st2, visited2)
  | fuel + 1, RCall.incs fk todo cur lvl, visited, st =>
    match todo with
    | [] => Except.ok (st, visited)
    | inc :: rest =>
      match lookupFD st.files fk with
      | none => Except.ok (st, visited)
      | some fd =>
        match resolve_router_ref st.files fk fd inc.router_var with
        | some (tfk, tvn) =>
          match interp pc gic fuel
              (RCall.router tfk tvn (combinePfx cur inc.pfx) lvl) visited st with
          | Except.error e => Except.error e
          | Except.ok (st1, visited1) =>
            interp pc gic fuel (RCall.incs fk rest cur lvl) visited1 st1
        | none => interp pc gic fuel (RCall.incs fk rest cur lvl) visited st
  | fuel + 1, RCall.children todo cur lvl, visited, st =>
    match todo with
    | [] => Except.ok (st, visited)
    | child_id :: rest =>
      match splitColon child_id with
      | [c_file, c_var] =>
        if (match lookupFD st.files c_file with
            | some cfd => alistHas cfd.routers c_var
            | none => false) then
          let new_pfx := rstripSlash (rstripSlash cur ++
            ("/\x7bp" ++ toString (lvl + 1) ++ "_pk\x7d"))
          match interp pc gic fuel
              (RCall.router c_file c_var new_pfx (lvl + 1)) visited st with
          | Except.error e => Except.error e
          | Except.ok (st1, visited1) =>
            interp pc gic fuel (RCall.children rest cur lvl) visited1 st1
        else interp pc gic fuel (RCall.children rest cur lvl) visited st
      | _ => Except.error "ValueError: not enough values to unpack child_id.split(':')"

/-- The `apps` list comprehension of `ProjectScanner.resolve`
(`if fd.app_var and fd.app_var in fd.routers`), as store addresses. -/
def appsOf (files : Store) : List (String × String) :=
  files.filterMap (fun p =>
    match p.2.app_var with
    | some av =>
      if av = "" then none
      else if alistHas p.2.routers av then some (p.1, av) else none
    | none => none)

/-- All declared routes, in file/router/declaration order (the degenerate
triple loop of `ProjectScanner.resolve`). -/
def allRouteIds (files : Store) : List RouteId :=
  files.flatMap (fun p => p.2.routers.flatMap (fun q =>
    (List.range q.2.routes.length).map (fun i => (p.1, q.1, i))))

/-- The degenerate fallback loop: every route in every router, with
`route.full_path = route.path` and finalization, no prefix composition. -/
def degenerateRun : List RouteId → RState → Except String RState
  | [], st => Except.ok st
  | rid :: rest, st =>
    match finalize_route
        (updateRoute st.files rid (fun r => { r with full_path := r.path })) rid with
    | Except.error e => Except.error e
    | Except.ok files2 =>
      degenerateRun rest { files := files2, endpoints := st.endpoints ++ [rid] }

/-- The entry-point loop of `ProjectScanner.resolve`: each app router is
traversed with a fresh empty `visited` set, prefix `""`, level `0`. -/
def appsRun (pc : List (String × List String)) (gic : List String) (fuel : Nat) :
    List (String × String) → RState → Except String RState
  | [], st => Except.ok st
  | (fk, av) :: rest, st =>
    match interp pc gic fuel (RCall.router fk av "" 0) [] st with
    | Except.error e => Except.error e
    | Except.ok (st1, _) => appsRun pc gic fuel rest st1

/-- The weight a yet-unvisited router entry contributes to the fuel
measure: its include count, its magic-children count, and three steps. -/
def routerEntryWeight (pc : List (String × List String)) (fd : FileData)
    (q : String × RouterDef) : Nat :=
  q.2.includes.length +
    ((alistGet pc (fd.file_path ++ ":" ++ q.2.var_name)).getD []).length + 3

/-- The fuel measure: total weight of the router entries whose attribute
FQID is not yet visited. -/
def passBMeasure (files : Store) (pc : List (String × List String))
    (v : List String) : Nat :=
  (files.map (fun p =>
    ((p.2.routers.filter
      (fun q => !((p.2.file_path ++ ":" ++ q.2.var_name) ∈ v))).map
      (routerEntryWeight pc p.2)).sum)).sum

/-- A fuel value large enough that `interp` never exhausts it. -/
def passBFuel (files : Store) (pc : List (String × List String)) : Nat :=
  passBMeasure files pc [] + 1

/-- `ProjectScanner.resolve`. -/
def resolve (files : Store) (pc : List (String × List String))
    (gic : List String) : Except String RState :=
  let st0 : RState := { files := files, endpoints := [] }
  if (appsOf files).isEmpty then degenerateRun (allRouteIds files) st0
  else appsRun pc gic (passBFuel files pc) (appsOf files) st0

/-- `scan` phase 2 followed by `resolve`: the whole post-extraction
pipeline on a fact store plus the global includes-children set collected
during extraction. -/
def run_resolve (files : Store) (gic : List String) : Except String RState :=
  resolve files (buildHierarchy files) gic

/-! ## Structural lemmas: route mutation never changes the store's shape
(keys, router names, include lists, route counts), only route fields. -/

theorem routerUpd_fst (rid : RouteId) (f : RouteDef → RouteDef)
    (q : String × RouterDef) : (routerUpd rid f q).1 = q.1 := by
  unfold routerUpd
  split <;> rfl

theorem routerUpd_var_name (rid : RouteId) (f : RouteDef → RouteDef)
    (q : String × RouterDef) : (routerUpd rid f q).2.var_name = q.2.var_name := by
  unfold routerUpd
  split <;> rfl

theorem routerUpd_includes (rid : RouteId) (f : RouteDef → RouteDef)
    (q : String × RouterDef) : (routerUpd rid f q).2.includes = q.2.includes := by
  unfold routerUpd
  split <;> rfl

theorem routerUpd_routes (rid : RouteId) (f : RouteDef → RouteDef)
    (q : String × RouterDef) : (routerUpd rid f q).2.routes
      = (if q.1 = rid.2.1 then routeListUpd f rid.2.2 q.2.routes else q.2.routes) := by
  unfold routerUpd
  split <;> rename_i h <;> simp [h]

theorem fileUpd_fst (rid : RouteId) (f : RouteDef → RouteDef)
    (p : String × FileData) : (fileUpd rid f p).1 = p.1 := by
  unfold fileUpd
  split <;> rfl

theorem fileUpd_file_path (rid : RouteId) (f : RouteDef → RouteDef)
    (p : String × FileData) : (fileUpd rid f p).2.file_path = p.2.file_path := by
  unfold fileUpd
  split <;> rfl

theorem fileUpd_routers (rid : RouteId) (f : RouteDef → RouteDef)
    (p : String × FileData) : (fileUpd rid f p).2.routers
      = (if p.1 = rid.1 then p.2.routers.map (routerUpd rid f) else p.2.routers) := by
  unfold fileUpd
  split <;> rename_i h <;> simp [h]

theorem alistGet_map_keyPreserving {α β : Type} (g : String × α → String × β)
    (hg : ∀ p, (g p).1 = p.1) (l : List (String × α)) (k : String) :
    alistGet (l.map g) k = (l.find? (fun p => p.1 = k)).map (fun p => (g p).2) := by
  unfold alistGet
  rw [List.find?_map]
  have hpred : ((fun p : String × β => decide (p.1 = k)) ∘ g)
      = (fun p : String × α => decide (p.1 = k)) := by
    funext p
    simp [hg p]
  rw [hpred, Option.map_map]
  rfl

theorem alistGet_eq_snd_find {α : Type} (l : List (String × α)) (k : String) :
    alistGet l k = (l.find? (fun p => p.1 = k)).map Prod.snd := rfl

theorem find?_key_eq {α : Type} {l : List (String × α)} {k : String}
    {p : String × α} (h : l.find? (fun p => p.1 = k) = some p) : p.1 = k := by
  have := List.find?_some h
  simpa using this

theorem lookupFD_updateRoute (files : Store) (rid : RouteId)
    (f : RouteDef → RouteDef) (k : String) :
    lookupFD (updateRoute files rid f) k = (lookupFD files k).map (fun fd =>
      if k = rid.1 then { fd with routers := fd.routers.map (routerUpd rid f) }
      else fd) := by
  unfold updateRoute lookupFD
  rw [alistGet_map_keyPreserving (fileUpd rid f)
    (by intro p; exact fileUpd_fst rid f p) files k]
  rw [alistGet_eq_snd_find]
  rcases hfind : files.find? (fun p => p.1 = k) with _ | p
  · rw [hfind]
    rfl
  · rw [hfind]
    have hk := find?_key_eq hfind
    simp only [Option.map_some']
    have h2 : (fileUpd rid f p).2 = (if k = rid.1 then
        { p.2 with routers := p.2.routers.map (routerUpd rid f) } else p.2) := by
      unfold fileUpd
      rw [hk]
      split <;> rename_i h <;> simp [h]
    rw [h2]

theorem routeListUpd_length (f : RouteDef → RouteDef) :
    ∀ (i : Nat) (routes : List RouteDef),
      (routeListUpd f i routes).length = routes.length := by
  intro i routes
  induction routes generalizing i with
  | nil => cases i <;> rfl
  | cons r rest ih => cases i <;> simp [routeListUpd, ih]

theorem routeListUpd_get? (f : RouteDef → RouteDef) :
    ∀ (i j : Nat) (routes : List RouteDef),
      (routeListUpd f i routes).get? j
        = (routes.get? j).map (fun r => if j = i then f r else r) := by
  intro i j routes
  induction routes generalizing i j with
  | nil => cases i <;> cases j <;> rfl
  | cons r rest ih =>
    cases i with
    | zero => cases j with
      | zero => simp [routeListUpd]
      | succ j' => simp [routeListUpd]
    | succ i' => cases j with
      | zero => simp [routeListUpd]
      | succ j' =>
        simp only [routeListUpd, List.get?_cons_succ, ih]
        have hfun : (fun r => if j' = i' then f r else r)
            = (fun r : RouteDef => if j' + 1 = i' + 1 then f r else r) := by
          funext r
          by_cases h : j' = i' <;> simp [h]
        rw [hfun]

theorem getRoute_updateRoute (files : Store) (rid : RouteId)
    (f : RouteDef → RouteDef) (rid' : RouteId) :
    getRoute (updateRoute files rid f) rid'
      = (getRoute files rid').map (fun r => if rid' = rid then f r else r) := by
  obtain ⟨k, vn, i⟩ := rid'
  obtain ⟨k0, vn0, i0⟩ := rid
  unfold getRoute
  rw [lookupFD_updateRoute]
  rcases hfd : lookupFD files k with _ | fd
  · rfl
  · simp only [Option.map_some', Option.bind_eq_bind, Option.some_bind]
    by_cases hk : k = k0
    · subst hk
      rw [if_pos rfl]
      rw [alistGet_map_keyPreserving (routerUpd (k, vn0, i0) f)
        (fun q => routerUpd_fst _ f q) fd.routers vn]
      rw [alistGet_eq_snd_find]
      rcases hq : fd.routers.find? (fun p => p.1 = vn) with _ | q
      · rw [hq]
        rfl
      · rw [hq]
        have hv := find?_key_eq hq
        simp only [Option.map_some', Option.some_bind]
        rw [routerUpd_routes, hv]
        by_cases hvn : vn = vn0
        · subst hvn
          rw [if_pos rfl, routeListUpd_get?]
          rcases hr : q.2.routes.get? i with _ | r
          · rfl
          · simp only [Option.map_some']
            by_cases hi : i = i0
            · simp [hi, Prod.ext_iff]
            · simp [hi, Prod.ext_iff]
        · rw [if_neg hvn]
          rcases hr : q.2.routes.get? i with _ | r
          · rfl
          · simp [Prod.ext_iff, hvn]
    · rw [if_neg (fun h => hk h)]
      rcases hq : alistGet fd.routers vn with _ | q
      · rfl
      · rcases hr : q.routes.get? i with _ | r
        · simp [← List.get?_eq_getElem?, hr]
        · simp [← List.get?_eq_getElem?, hr, Prod.ext_iff, hk]

/-- The FQID `fd.file_path + ":" + r.var_name` that `_resolve_router`
computes for the router stored at `(fk, vn)` (the fallback branches are
never reached by the traversal, which checks the lookups first). -/
def attrId (files : Store) (fk vn : String) : String :=
  match lookupFD files fk with
  | some fd =>
    match alistGet fd.routers vn with
    | some r => fd.file_path ++ ":" ++ r.var_name
    | none => fk ++ ":" ++ vn
  | none => fk ++ ":" ++ vn

theorem attrId_updateRoute (files : Store) (rid : RouteId)
    (f : RouteDef → RouteDef) (fk vn : String) :
    attrId (updateRoute files rid f) fk vn = attrId files fk vn := by
  unfold attrId
  rw [lookupFD_updateRoute]
  rcases h : lookupFD files fk with _ | fd
  · rfl
  · simp only [Option.map_some']
    by_cases hk : fk = rid.1
    · rw [if_pos hk]
      have hrs : ({ fd with routers := fd.routers.map (routerUpd rid f) } :
          FileData).routers = fd.routers.map (routerUpd rid f) := rfl
      have hfp : ({ fd with routers := fd.routers.map (routerUpd rid f) } :
          FileData).file_path = fd.file_path := rfl
      simp only [hrs, hfp]
      rw [alistGet_map_keyPreserving _ (routerUpd_fst rid f), alistGet_eq_snd_find]
      rcases hq : fd.routers.find? (fun p => p.1 = vn) with _ | q
      · rw [hq]
        rfl
      · rw [hq]
        simp only [Option.map_some']
        rw [routerUpd_var_name]
    · rw [if_neg hk]

theorem passBMeasure_updateRoute (files : Store) (rid : RouteId)
    (f : RouteDef → RouteDef) (pc : List (String × List String))
    (v : List String) :
    passBMeasure (updateRoute files rid f) pc v = passBMeasure files pc v := by
  unfold passBMeasure updateRoute
  rw [List.map_map]
  congr 1
  apply List.map_congr_left
  intro p _
  simp only [Function.comp]
  by_cases hk : p.1 = rid.1
  · unfold fileUpd
    rw [if_pos hk]
    simp only
    rw [List.filter_map]
    have hcond : ((fun q : String × RouterDef =>
        !decide ((p.2.file_path ++ ":" ++ q.2.var_name) ∈ v)) ∘ routerUpd rid f)
        = (fun q : String × RouterDef =>
        !decide ((p.2.file_path ++ ":" ++ q.2.var_name) ∈ v)) := by
      funext q
      simp [routerUpd_var_name]
    rw [hcond, List.map_map]
    congr 1
    apply List.map_congr_left
    intro q _
    simp only [Function.comp]
    unfold routerEntryWeight
    rw [routerUpd_includes, routerUpd_var_name]
  · unfold fileUpd
    rw [if_neg hk]

/-- Everything the traversal's control decisions and fuel measure read is
untouched by route mutation. -/
def StructurePreserved (files files' : Store) : Prop :=
  (∀ pc v, passBMeasure files' pc v = passBMeasure files pc v)
  ∧ (∀ fk vn, attrId files' fk vn = attrId files fk vn)

theorem StructurePreserved.rfl (files : Store) : StructurePreserved files files :=
  ⟨fun _ _ => Eq.refl _, fun _ _ => Eq.refl _⟩

theorem StructurePreserved.trans {a b c : Store}
    (h1 : StructurePreserved a b) (h2 : StructurePreserved b c) :
    StructurePreserved a c :=
  ⟨fun pc v => (h2.1 pc v).trans (h1.1 pc v),
   fun fk vn => (h2.2 fk vn).trans (h1.2 fk vn)⟩

theorem StructurePreserved.update (files : Store) (rid : RouteId)
    (f : RouteDef → RouteDef) : StructurePreserved files (updateRoute files rid f) :=
  ⟨fun pc v => passBMeasure_updateRoute files rid f pc v,
   fun fk vn => attrId_updateRoute files rid f fk vn⟩

theorem finalize_route_shape {files : Store} {rid : RouteId} {files' : Store}
    (h : finalize_route files rid = Except.ok files') :
    files' = files ∨ ∃ g, files' = updateRoute files rid g := by
  unfold finalize_route at h
  split at h
  · left
    injection h with h'
    exact h'.symm
  · split at h
    · cases h
    · right
      simp only [Except.ok.injEq] at h
      exact ⟨_, h.symm⟩

theorem finalize_route_preserved {files : Store} {rid : RouteId} {files' : Store}
    (h : finalize_route files rid = Except.ok files') :
    StructurePreserved files files' := by
  rcases finalize_route_shape h with rfl | ⟨g, rfl⟩
  · exact StructurePreserved.rfl _
  · exact StructurePreserved.update _ rid g

theorem emitRoutes_ok {cur fk vn : String} {l : List Nat} {st st' : RState}
    (h : emitRoutes cur fk vn l st = Except.ok st') :
    st'.endpoints = st.endpoints ++ l.map (fun i => ((fk, vn, i) : RouteId))
    ∧ StructurePreserved st.files st'.files := by
  induction l generalizing st with
  | nil =>
    unfold emitRoutes at h
    injection h with h'
    subst h'
    exact ⟨by simp, StructurePreserved.rfl _⟩
  | cons i rest ih =>
    unfold emitRoutes at h
    split at h
    · cases h
    · rename_i files2 hfin
      have ihh := ih h
      constructor
      · rw [ihh.1]
        simp
      · exact StructurePreserved.trans
          (StructurePreserved.trans (StructurePreserved.update st.files (fk, vn, i) _)
            (finalize_route_preserved hfin)) ihh.2

theorem finalize_route_error_msg {files : Store} {rid : RouteId} {e : String}
    (h : finalize_route files rid = Except.error e) :
    e = "KeyError: route.file_path not in self.files" := by
  unfold finalize_route at h
  split at h
  · cases h
  · split at h
    · injection h with h'
      exact h'.symm
    · simp at h

theorem emitRoutes_not_fuel {cur fk vn : String} {l : List Nat} {st : RState} :
    emitRoutes cur fk vn l st ≠ Except.error "out of fuel" := by
  induction l generalizing st with
  | nil =>
    unfold emitRoutes
    intro h
    cases h
  | cons i rest ih =>
    unfold emitRoutes
    split
    · rename_i e hfin
      intro h
      injection h with h'
      rw [finalize_route_error_msg hfin] at h'
      exact absurd h' (by decide)
    · exact ih

theorem interp_grow (pc : List (String × List String)) (gic : List String) :
    ∀ (fuel : Nat) (c : RCall) (v : List String) (st st' : RState) (v' : List String),
      interp pc gic fuel c v st = Except.ok (st', v') → v <+: v' := by
  intro fuel
  induction fuel with
  | zero =>
    intro c v st st' v' h
    cases h
  | succ n ih =>
    intro c v st st' v' h
    cases c with
    | router fk vn pfx lvl =>
      simp only [interp] at h
      split at h
      · simp only [Except.ok.injEq, Prod.mk.injEq] at h
        exact h.2 ▸ List.prefix_refl v
      · split at h
        · simp only [Except.ok.injEq, Prod.mk.injEq] at h
          exact h.2 ▸ List.prefix_refl v
        · split at h
          · simp only [Except.ok.injEq, Prod.mk.injEq] at h
            exact h.2 ▸ List.prefix_refl v
          · split at h
            · cases h
            · split at h
              · cases h
              · rename_i st2 v2 hincs
                have h1 : v <+: v2 :=
                  (List.prefix_append v _).trans (ih _ _ _ _ _ hincs)
                split at h
                · exact h1.trans (ih _ _ _ _ _ h)
                · simp only [Except.ok.injEq, Prod.mk.injEq] at h
                  exact h.2 ▸ h1
    | incs fk todo cur lvl =>
      cases todo with
      | nil =>
        simp only [interp] at h
        simp only [Except.ok.injEq, Prod.mk.injEq] at h
        exact h.2 ▸ List.prefix_refl v
      | cons inc rest =>
        simp only [interp] at h
        split at h
        · simp only [Except.ok.injEq, Prod.mk.injEq] at h
          exact h.2 ▸ List.prefix_refl v
        · split at h
          · split at h
            · cases h
            · rename_i st1 v1 hrt
              exact (ih _ _ _ _ _ hrt).trans (ih _ _ _ _ _ h)
          · exact ih _ _ _ _ _ h
    | children todo cur lvl =>
      cases todo with
      | nil =>
        simp only [interp] at h
        simp only [Except.ok.injEq, Prod.mk.injEq] at h
        exact h.2 ▸ List.prefix_refl v
      | cons child_id rest =>
        simp only [interp] at h
        split at h
        · split at h
          · split at h
            · cases h
            · rename_i st1 v1 hrt
              exact (ih _ _ _ _ _ hrt).trans (ih _ _ _ _ _ h)
          · exact ih _ _ _ _ _ h
        · cases h

theorem interp_preserved (pc : List (String × List String)) (gic : List String) :
    ∀ (fuel : Nat) (c : RCall) (v : List String) (st st' : RState) (v' : List String),
      interp pc gic fuel c v st = Except.ok (st', v') →
      StructurePreserved st.files st'.files := by
  intro fuel
  induction fuel with
  | zero =>
    intro c v st st' v' h
    cases h
  | succ n ih =>
    intro c v st st' v' h
    cases c with
    | router fk vn pfx lvl =>
      simp only [interp] at h
      split at h
      · simp only [Except.ok.injEq, Prod.mk.injEq] at h
        exact h.1 ▸ StructurePreserved.rfl _
      · split at h
        · simp only [Except.ok.injEq, Prod.mk.injEq] at h
          exact h.1 ▸ StructurePreserved.rfl _
        · split at h
          · simp only [Except.ok.injEq, Prod.mk.injEq] at h
            exact h.1 ▸ StructurePreserved.rfl _
          · split at h
            · cases h
            · rename_i st1 hemit
              split at h
              · cases h
              · rename_i st2 v2 hincs
                have hp1 := (emitRoutes_ok hemit).2
                have hp2 := ih _ _ _ _ _ hincs
                split at h
                · exact (hp1.trans hp2).trans (ih _ _ _ _ _ h)
                · simp only [Except.ok.injEq, Prod.mk.injEq] at h
                  exact h.1 ▸ (hp1.trans hp2)
    | incs fk todo cur lvl =>
      cases todo with
      | nil =>
        simp only [interp] at h
        simp only [Except.ok.injEq, Prod.mk.injEq] at h
        exact h.1 ▸ StructurePreserved.rfl _
      | cons inc rest =>
        simp only [interp] at h
        split at h
        · simp only [Except.ok.injEq, Prod.mk.injEq] at h
          exact h.1 ▸ StructurePreserved.rfl _
        · split at h
          · split at h
            · cases h
            · rename_i st1 v1 hrt
              exact (ih _ _ _ _ _ hrt).trans (ih _ _ _ _ _ h)
          · exact ih _ _ _ _ _ h
    | children todo cur lvl =>
      cases todo with
      | nil =>
        simp only [interp] at h
        simp only [Except.ok.injEq, Prod.mk.injEq] at h
        exact h.1 ▸ StructurePreserved.rfl _
      | cons child_id rest =>
        simp only [interp] at h
        split at h
        · split at h
          · split at h
            · cases h
            · rename_i st1 v1 hrt
              exact (ih _ _ _ _ _ hrt).trans (ih _ _ _ _ _ h)
          · exact ih _ _ _ _ _ h
        · cases h

theorem filter_weight_mono {α : Type} (w : α → Nat) (p q : α → Bool)
    (h : ∀ a, q a = true → p a = true) :
    ∀ l : List α, ((l.filter q).map w).sum ≤ ((l.filter p).map w).sum := by
  intro l
  induction l with
  | nil => simp
  | cons x t ih =>
    rcases hq : q x with _ | _
    · rcases hp : p x with _ | _
      · simpa [List.filter_cons, hq, hp] using ih
      · simp only [List.filter_cons, hq, hp, if_true, if_false, Bool.false_eq_true,
          List.map_cons, List.sum_cons]
        omega
    · have hp := h x hq
      simp only [List.filter_cons, hq, hp, if_true, List.map_cons, List.sum_cons]
      omega

theorem passBMeasure_mono (files : Store) (pc : List (String × List String))
    {v w : List String} (hsub : ∀ a, a ∈ v → a ∈ w) :
    passBMeasure files pc w ≤ passBMeasure files pc v := by
  unfold passBMeasure
  apply List.sum_le_sum
  intro p _
  apply filter_weight_mono
  intro q hq
  simp only [Bool.not_eq_eq_eq_not, Bool.not_true, decide_eq_false_iff_not] at hq ⊢
  exact fun hin => hq (hsub _ hin)

theorem mem_of_lookupFD {files : Store} {fk : String} {fd : FileData}
    (h : lookupFD files fk = some fd) : (fk, fd) ∈ files := by
  unfold lookupFD alistGet at h
  rcases hfind : files.find? (fun p => p.1 = fk) with _ | p
  · rw [hfind] at h
    cases h
  · rw [hfind] at h
    have hk := find?_key_eq hfind
    have hm := List.mem_of_find?_eq_some hfind
    simp only [Option.map_some', Option.some.injEq] at h
    have hp : (p.1, p.2) ∈ files := by simpa using hm
    rw [hk, h] at hp
    exact hp

theorem mem_of_alistGet {α : Type} {l : List (String × α)} {k : String} {a : α}
    (h : alistGet l k = some a) : (k, a) ∈ l := by
  unfold alistGet at h
  rcases hfind : l.find? (fun p => p.1 = k) with _ | p
  · rw [hfind] at h
    cases h
  · rw [hfind] at h
    have hk := find?_key_eq hfind
    have hm := List.mem_of_find?_eq_some hfind
    simp only [Option.map_some', Option.some.injEq] at h
    have hp : (p.1, p.2) ∈ l := by simpa using hm
    rw [hk, h] at hp
    exact hp

theorem inner_term_visit (pc : List (String × List String)) (fd : FileData)
    (v : List String) (vn : String) (r : RouterDef)
    (hr : alistGet fd.routers vn = some r)
    (hnot : (fd.file_path ++ ":" ++ r.var_name) ∉ v) :
    (((fd.routers.filter (fun q =>
        !((fd.file_path ++ ":" ++ q.2.var_name) ∈
          (v ++ [fd.file_path ++ ":" ++ r.var_name])))).map
        (routerEntryWeight pc fd)).sum)
      + routerEntryWeight pc fd (vn, r)
      ≤ ((fd.routers.filter (fun q =>
        !((fd.file_path ++ ":" ++ q.2.var_name) ∈ v))).map
        (routerEntryWeight pc fd)).sum := by
  obtain ⟨m1, m2, hsplit⟩ := List.append_of_mem (mem_of_alistGet hr)
  rw [hsplit]
  simp only [List.filter_append, List.filter_cons, List.map_append, List.sum_append]
  have hq0 : (!decide ((fd.file_path ++ ":" ++ (vn, r).2.var_name) ∈ v)) = true := by
    simp [hnot]
  have hq0' : (!decide ((fd.file_path ++ ":" ++ (vn, r).2.var_name) ∈
      (v ++ [fd.file_path ++ ":" ++ r.var_name]))) = false := by
    simp
  rw [hq0, hq0']
  simp only [Bool.false_eq_true, if_true, if_false,
    List.map_cons, List.sum_cons, ite_true, ite_false]
  have h1 := filter_weight_mono (routerEntryWeight pc fd)
    (fun q => !((fd.file_path ++ ":" ++ q.2.var_name) ∈ v))
    (fun q => !((fd.file_path ++ ":" ++ q.2.var_name) ∈
      (v ++ [fd.file_path ++ ":" ++ r.var_name])))
    (by
      intro a ha
      simp only [Bool.not_eq_eq_eq_not, Bool.not_true, decide_eq_false_iff_not] at ha ⊢
      exact fun hin => ha (List.mem_append_left _ hin)) m1
  have h2 := filter_weight_mono (routerEntryWeight pc fd)
    (fun q => !((fd.file_path ++ ":" ++ q.2.var_name) ∈ v))
    (fun q => !((fd.file_path ++ ":" ++ q.2.var_name) ∈
      (v ++ [fd.file_path ++ ":" ++ r.var_name])))
    (by
      intro a ha
      simp only [Bool.not_eq_eq_eq_not, Bool.not_true, decide_eq_false_iff_not] at ha ⊢
      exact fun hin => ha (List.mem_append_left _ hin)) m2
  omega

theorem passBMeasure_visit (files : Store) (pc : List (String × List String))
    (v : List String) (fk vn : String) (fd : FileData) (r : RouterDef)
    (hfd : lookupFD files fk = some fd)
    (hr : alistGet fd.routers vn = some r)
    (hnot : (fd.file_path ++ ":" ++ r.var_name) ∉ v) :
    passBMeasure files pc (v ++ [fd.file_path ++ ":" ++ r.var_name])
      + routerEntryWeight pc fd (vn, r)
      ≤ passBMeasure files pc v := by
  obtain ⟨l1, l2, hsplit⟩ := List.append_of_mem (mem_of_lookupFD hfd)
  unfold passBMeasure
  rw [hsplit]
  simp only [List.map_append, List.sum_append, List.map_cons, List.sum_cons]
  have hterm := inner_term_visit pc fd v vn r hr hnot
  have hl1 : ∀ p : String × FileData,
      ((p.2.routers.filter (fun q =>
        !((p.2.file_path ++ ":" ++ q.2.var_name) ∈
          (v ++ [fd.file_path ++ ":" ++ r.var_name])))).map
        (routerEntryWeight pc p.2)).sum
      ≤ ((p.2.routers.filter (fun q =>
        !((p.2.file_path ++ ":" ++ q.2.var_name) ∈ v))).map
        (routerEntryWeight pc p.2)).sum := by
    intro p
    apply filter_weight_mono
    intro a ha
    simp only [Bool.not_eq_eq_eq_not, Bool.not_true, decide_eq_false_iff_not] at ha ⊢
    exact fun hin => ha (List.mem_append_left _ hin)
  have s1 := List.sum_le_sum (fun p (_ : p ∈ l1) => hl1 p)
  have s2 := List.sum_le_sum (fun p (_ : p ∈ l2) => hl1 p)
  omega

/-- The fuel a call provably needs: the measure of unvisited routers plus
the pending list length plus one. -/
def callBound (files : Store) (pc : List (String × List String))
    (v : List String) : RCall → Nat
  | RCall.router _ _ _ _ => passBMeasure files pc v + 1
  | RCall.incs _ todo _ _ => passBMeasure files pc v + todo.length + 1
  | RCall.children todo _ _ => passBMeasure files pc v + todo.length + 1

theorem callBound_pos (files : Store) (pc : List (String × List String))
    (v : List String) (c : RCall) : 1 ≤ callBound files pc v c := by
  cases c <;> simp [callBound]

theorem interp_no_fuelout (pc : List (String × List String)) (gic : List String) :
    ∀ (fuel : Nat) (c : RCall) (v : List String) (st : RState),
      callBound st.files pc v c ≤ fuel →
      interp pc gic fuel c v st ≠ Except.error "out of fuel" := by
  intro fuel
  induction fuel with
  | zero =>
    intro c v st hb
    have := callBound_pos st.files pc v c
    omega
  | succ n ih =>
    intro c v st hb hcon
    cases c with
    | router fk vn pfx lvl =>
      simp only [interp] at hcon
      split at hcon
      · cases hcon
      · rename_i fd hfd
        split at hcon
        · cases hcon
        · rename_i r hr
          split at hcon
          · cases hcon
          · rename_i hnotin
            split at hcon
            · rename_i e hemit
              injection hcon with he
              subst he
              exact emitRoutes_not_fuel hemit
            · rename_i st1 hemit
              have hpres1 := (emitRoutes_ok hemit).2
              have hvisit := passBMeasure_visit st.files pc v fk vn fd r hfd hr hnotin
              have hw : routerEntryWeight pc fd (vn, r)
                  = r.includes.length +
                    ((alistGet pc (fd.file_path ++ ":" ++ r.var_name)).getD []).length
                    + 3 := rfl
              simp only [callBound] at hb
              split at hcon
              · rename_i e hincs
                injection hcon with he
                subst he
                refine ih _ _ _ ?_ hincs
                simp only [callBound]
                rw [hpres1.1]
                omega
              · rename_i st2 v2 hincs
                have hgrow := interp_grow pc gic n _ _ _ _ _ hincs
                have hpres2 := interp_preserved pc gic n _ _ _ _ _ hincs
                have hmono := passBMeasure_mono st.files pc
                  (v := v ++ [fd.file_path ++ ":" ++ r.var_name]) (w := v2)
                  (fun a ha => hgrow.subset ha)
                split at hcon
                · refine ih _ _ _ ?_ hcon
                  simp only [callBound]
                  rw [hpres2.1, hpres1.1]
                  have hlen : ((alistGet pc
                      (fd.file_path ++ ":" ++ r.var_name)).getD []).length
                      = ((alistGet pc (fd.file_path ++ ":" ++ r.var_name)).getD
                        []).length := rfl
                  omega
                · cases hcon
    | incs fk todo cur lvl =>
      cases todo with
      | nil =>
        simp only [interp] at hcon
        cases hcon
      | cons inc rest =>
        simp only [callBound, List.length_cons] at hb
        simp only [interp] at hcon
        split at hcon
        · cases hcon
        · split at hcon
          · split at hcon
            · rename_i e hrt
              injection hcon with he
              subst he
              refine ih _ _ _ ?_ hrt
              simp only [callBound]
              omega
            · rename_i st1 v1 hrt
              have hgrow := interp_grow pc gic n _ _ _ _ _ hrt
              have hpres := interp_preserved pc gic n _ _ _ _ _ hrt
              have hmono := passBMeasure_mono st.files pc
                (v := v) (w := v1) (fun a ha => hgrow.subset ha)
              refine ih _ _ _ ?_ hcon
              simp only [callBound]
              rw [hpres.1]
              omega
          · refine ih _ _ _ ?_ hcon
            simp only [callBound]
            omega
    | children todo cur lvl =>
      cases todo with
      | nil =>
        simp only [interp] at hcon
        cases hcon
      | cons child_id rest =>
        simp only [callBound, List.length_cons] at hb
        simp only [interp] at hcon
        split at hcon
        · split at hcon
          · split at hcon
            · rename_i e hrt
              injection hcon with he
              subst he
              refine ih _ _ _ ?_ hrt
              simp only [callBound]
              omega
            · rename_i st1 v1 hrt
              have hgrow := interp_grow pc gic n _ _ _ _ _ hrt
              have hpres := interp_preserved pc gic n _ _ _ _ _ hrt
              have hmono := passBMeasure_mono st.files pc
                (v := v) (w := v1) (fun a ha => hgrow.subset ha)
              refine ih _ _ _ ?_ hcon
              simp only [callBound]
              rw [hpres.1]
              omega
          · refine ih _ _ _ ?_ hcon
            simp only [callBound]
            omega
        · injection hcon with he
          exact absurd he (by decide)

theorem interp_fuel_stable (pc : List (String × List String)) (gic : List String) :
    ∀ (f1 f2 : Nat) (c : RCall) (v : List String) (st : RState),
      callBound st.files pc v c ≤ f1 → callBound st.files pc v c ≤ f2 →
      interp pc gic f1 c v st = interp pc gic f2 c v st := by
  intro f1
  induction f1 using Nat.strong_induction_on with
  | _ f1 ih =>
    intro f2 c v st hb1 hb2
    have hpos := callBound_pos st.files pc v c
    obtain ⟨a, rfl⟩ : ∃ a, f1 = a + 1 := ⟨f1 - 1, by omega⟩
    obtain ⟨b, rfl⟩ : ∃ b, f2 = b + 1 := ⟨f2 - 1, by omega⟩
    cases c with
    | router fk vn pfx lvl =>
      simp only [interp]
      rcases hfd : lookupFD st.files fk with _ | fd
      · rfl
      · simp only []
        rcases hr : alistGet fd.routers vn with _ | r
        · rfl
        · simp only []
          by_cases hin : (fd.file_path ++ ":" ++ r.var_name) ∈ v
          · simp only [if_pos hin]
          · simp only [if_neg hin]
            rcases hemit : emitRoutes (combinePfx pfx r.pfx) fk vn
                (List.range r.routes.length) st with e | st1
            · rfl
            · simp only []
              have hpres1 := (emitRoutes_ok hemit).2
              have hvisit := passBMeasure_visit st.files pc v fk vn fd r hfd hr hin
              have hw : routerEntryWeight pc fd (vn, r)
                  = r.includes.length +
                    ((alistGet pc (fd.file_path ++ ":" ++ r.var_name)).getD []).length
                    + 3 := rfl
              simp only [callBound] at hb1 hb2
              have hbi1 : callBound st1.files pc
                  (v ++ [fd.file_path ++ ":" ++ r.var_name])
                  (RCall.incs fk r.includes (combinePfx pfx r.pfx) lvl) ≤ a := by
                simp only [callBound]
                rw [hpres1.1]
                omega
              have hbi2 : callBound st1.files pc
                  (v ++ [fd.file_path ++ ":" ++ r.var_name])
                  (RCall.incs fk r.includes (combinePfx pfx r.pfx) lvl) ≤ b := by
                simp only [callBound]
                rw [hpres1.1]
                omega
              rw [ih a (by omega) b _ _ _ hbi1 hbi2]
              rcases hincs : interp pc gic b
                  (RCall.incs fk r.includes (combinePfx pfx r.pfx) lvl)
                  (v ++ [fd.file_path ++ ":" ++ r.var_name]) st1 with e | p
              · rfl
              · obtain ⟨st2, v2⟩ := p
                simp only []
                have hgrow := interp_grow pc gic b _ _ _ _ _ hincs
                have hpres2 := interp_preserved pc gic b _ _ _ _ _ hincs
                have hmono := passBMeasure_mono st.files pc
                  (v := v ++ [fd.file_path ++ ":" ++ r.var_name]) (w := v2)
                  (fun x hx => hgrow.subset hx)
                by_cases hmg : ((r.includes_children
                    || decide ((fd.file_path ++ ":" ++ r.var_name) ∈ gic))
                    && alistHas pc (fd.file_path ++ ":" ++ r.var_name)) = true
                · simp only [if_pos hmg]
                  have hbc1 : callBound st2.files pc v2
                      (RCall.children ((alistGet pc
                        (fd.file_path ++ ":" ++ r.var_name)).getD [])
                        (combinePfx pfx r.pfx) lvl) ≤ a := by
                    simp only [callBound]
                    rw [hpres2.1, hpres1.1]
                    omega
                  have hbc2 : callBound st2.files pc v2
                      (RCall.children ((alistGet pc
                        (fd.file_path ++ ":" ++ r.var_name)).getD [])
                        (combinePfx pfx r.pfx) lvl) ≤ b := by
                    simp only [callBound]
                    rw [hpres2.1, hpres1.1]
                    omega
                  exact ih a (by omega) b _ _ _ hbc1 hbc2
                · simp only [if_neg hmg]
    | incs fk todo cur lvl =>
      cases todo with
      | nil => simp only [interp]
      | cons inc rest =>
        simp only [callBound, List.length_cons] at hb1 hb2
        simp only [interp]
        rcases hfd : lookupFD st.files fk with _ | fd
        · rfl
        · simp only []
          rcases href : resolve_router_ref st.files fk fd inc.router_var
              with _ | p
          · exact ih a (by omega) b _ _ _ (by simp only [callBound]; omega)
              (by simp only [callBound]; omega)
          · obtain ⟨tfk, tvn⟩ := p
            simp only []
            rw [ih a (by omega) b (RCall.router tfk tvn (combinePfx cur inc.pfx) lvl)
              v st (by simp only [callBound]; omega) (by simp only [callBound]; omega)]
            rcases hrt : interp pc gic b
                (RCall.router tfk tvn (combinePfx cur inc.pfx) lvl) v st with e | p
            · rfl
            · obtain ⟨st1, v1⟩ := p
              simp only []
              have hgrow := interp_grow pc gic b _ _ _ _ _ hrt
              have hpres := interp_preserved pc gic b _ _ _ _ _ hrt
              have hmono := passBMeasure_mono st.files pc
                (v := v) (w := v1) (fun x hx => hgrow.subset hx)
              refine ih a (by omega) b _ _ _ ?_ ?_
              · simp only [callBound]
                rw [hpres.1]
                omega
              · simp only [callBound]
                rw [hpres.1]
                omega
    | children todo cur lvl =>
      cases todo with
      | nil => simp only [interp]
      | cons child_id rest =>
        simp only [callBound, List.length_cons] at hb1 hb2
        simp only [interp]
        rcases hsp : splitColon child_id with _ | ⟨c1, _ | ⟨c2, _ | ⟨c3, tail⟩⟩⟩
        · rfl
        · rfl
        · simp only []
          by_cases hok : (match lookupFD st.files c1 with
              | some cfd => alistHas cfd.routers c2
              | none => false) = true
          · simp only [if_pos hok]
            rw [ih a (by omega) b (RCall.router c1 c2
              (rstripSlash (rstripSlash cur ++
                ("/\x7bp" ++ toString (lvl + 1) ++ "_pk\x7d"))) (lvl + 1)) v st
              (by simp only [callBound]; omega) (by simp only [callBound]; omega)]
            rcases hrt : interp pc gic b (RCall.router c1 c2
                (rstripSlash (rstripSlash cur ++
                  ("/\x7bp" ++ toString (lvl + 1) ++ "_pk\x7d"))) (lvl + 1)) v st
                with e | p
            · rfl
            · obtain ⟨st1, v1⟩ := p
              simp only []
              have hgrow := interp_grow pc gic b _ _ _ _ _ hrt
              have hpres := interp_preserved pc gic b _ _ _ _ _ hrt
              have hmono := passBMeasure_mono st.files pc
                (v := v) (w := v1) (fun x hx => hgrow.subset hx)
              refine ih a (by omega) b _ _ _ ?_ ?_
              · simp only [callBound]
                rw [hpres.1]
                omega
              · simp only [callBound]
                rw [hpres.1]
                omega
          · simp only [if_neg hok]
            exact ih a (by omega) b _ _ _ (by simp only [callBound]; omega)
              (by simp only [callBound]; omega)
        · rfl

theorem attrId_of_lookup {files : Store} {fk vn : String} {fd : FileData}
    {r : RouterDef} (hfd : lookupFD files fk = some fd)
    (hr : alistGet fd.routers vn = some r) :
    attrId files fk vn = fd.file_path ++ ":" ++ r.var_name := by
  unfold attrId
  simp only [hfd, hr]

/-- Within one entry-point traversal, every call appends a duplicate-free
block of route identities to `endpoints`, and every emitted route's
router FQID moves from outside the input `visited` into the output
visited set: the shared visited set makes a router's routes appear at
most once per entry-point traversal. -/
theorem interp_emit_nodup (pc : List (String × List String)) (gic : List String) :
    ∀ (fuel : Nat) (c : RCall) (v : List String) (st st' : RState) (v' : List String),
      interp pc gic fuel c v st = Except.ok (st', v') →
      ∃ new : List RouteId,
        st'.endpoints = st.endpoints ++ new ∧ new.Nodup ∧
        ∀ rid ∈ new, attrId st.files rid.1 rid.2.1 ∉ v ∧
          attrId st.files rid.1 rid.2.1 ∈ v' := by
  intro fuel
  induction fuel with
  | zero =>
    intro c v st st' v' h
    cases h
  | succ n ih =>
    intro c v st st' v' h
    cases c with
    | router fk vn pfx lvl =>
      simp only [interp] at h
      split at h
      · simp only [Except.ok.injEq, Prod.mk.injEq] at h
        exact ⟨[], by simp [← h.1], List.nodup_nil, by simp⟩
      · rename_i fd hfd
        split at h
        · simp only [Except.ok.injEq, Prod.mk.injEq] at h
          exact ⟨[], by simp [← h.1], List.nodup_nil, by simp⟩
        · rename_i r hr
          split at h
          · simp only [Except.ok.injEq, Prod.mk.injEq] at h
            exact ⟨[], by simp [← h.1], List.nodup_nil, by simp⟩
          · rename_i hnotin
            split at h
            · cases h
            · rename_i st1 hemit
              split at h
              · cases h
              · rename_i st2 v2 hincs
                have hid := attrId_of_lookup hfd hr
                have hemitok := emitRoutes_ok hemit
                have hgrow1 := interp_grow pc gic n _ _ _ _ _ hincs
                have hpres1 := hemitok.2
                have hpres2 := interp_preserved pc gic n _ _ _ _ _ hincs
                obtain ⟨new1, hep1, hnd1, hattr1⟩ := ih _ _ _ _ _ hincs
                have hown : ∀ rid ∈ (List.range r.routes.length).map
                    (fun i => ((fk, vn, i) : RouteId)),
                    attrId st.files rid.1 rid.2.1
                      = fd.file_path ++ ":" ++ r.var_name := by
                  intro rid hm
                  obtain ⟨i, _, rfl⟩ := List.mem_map.mp hm
                  exact hid
                have hownnd : ((List.range r.routes.length).map
                    (fun i => ((fk, vn, i) : RouteId))).Nodup :=
                  (List.nodup_range r.routes.length).map
                    (fun a b hab => by simpa [Prod.ext_iff] using hab)
                have hIdMem1 : (fd.file_path ++ ":" ++ r.var_name)
                    ∈ v ++ [fd.file_path ++ ":" ++ r.var_name] := by simp
                have hattr1' : ∀ rid ∈ new1,
                    attrId st.files rid.1 rid.2.1
                      ∉ v ++ [fd.file_path ++ ":" ++ r.var_name] ∧
                    attrId st.files rid.1 rid.2.1 ∈ v2 := by
                  intro rid hm
                  have hx := hattr1 rid hm
                  rwa [hpres1.2 rid.1 rid.2.1] at hx
                have hd01 : ((List.range r.routes.length).map
                    (fun i => ((fk, vn, i) : RouteId))).Disjoint new1 := by
                  intro rid h1 h2
                  exact (hattr1' rid h2).1 (hown rid h1 ▸ hIdMem1)
                split at h
                · obtain ⟨new2, hep2, hnd2, hattr2⟩ := ih _ _ _ _ _ h
                  have hgrow2 := interp_grow pc gic n _ _ _ _ _ h
                  have hattr2' : ∀ rid ∈ new2,
                      attrId st.files rid.1 rid.2.1 ∉ v2 ∧
                      attrId st.files rid.1 rid.2.1 ∈ v' := by
                    intro rid hm
                    have hx := hattr2 rid hm
                    rwa [hpres2.2 rid.1 rid.2.1, hpres1.2 rid.1 rid.2.1] at hx
                  refine ⟨(List.range r.routes.length).map
                      (fun i => ((fk, vn, i) : RouteId)) ++ new1 ++ new2,
                    ?_, ?_, ?_⟩
                  · rw [hep2, hep1, hemitok.1]
                    simp [List.append_assoc]
                  · rw [List.nodup_append, List.nodup_append]
                    refine ⟨⟨hownnd, hnd1, hd01⟩, hnd2, ?_⟩
                    intro rid h1 h2
                    rcases List.mem_append.mp h1 with h1a | h1b
                    · exact (hattr2' rid h2).1
                        (hgrow1.subset (hown rid h1a ▸ hIdMem1))
                    · exact (hattr2' rid h2).1 (hattr1' rid h1b).2
                  · intro rid hm
                    rcases List.mem_append.mp hm with hm1 | hm2
                    · rcases List.mem_append.mp hm1 with hma | hmb
                      · refine ⟨hown rid hma ▸ hnotin, ?_⟩
                        exact hgrow2.subset (hgrow1.subset (hown rid hma ▸ hIdMem1))
                      · refine ⟨fun hv => (hattr1' rid hmb).1
                          (List.mem_append_left _ hv), ?_⟩
                        exact hgrow2.subset (hattr1' rid hmb).2
                    · refine ⟨fun hv => (hattr2' rid hm2).1
                        (hgrow1.subset (List.mem_append_left _ hv)), ?_⟩
                      exact (hattr2' rid hm2).2
                · simp only [Except.ok.injEq, Prod.mk.injEq] at h
                  obtain ⟨hst, hv⟩ := h
                  subst hst
                  subst hv
                  refine ⟨(List.range r.routes.length).map
                      (fun i => ((fk, vn, i) : RouteId)) ++ new1, ?_, ?_, ?_⟩
                  · rw [hep1, hemitok.1]
                    simp [List.append_assoc]
                  · exact List.nodup_append.mpr ⟨hownnd, hnd1, hd01⟩
                  · intro rid hm
                    rcases List.mem_append.mp hm with hma | hmb
                    · refine ⟨hown rid hma ▸ hnotin, ?_⟩
                      exact hgrow1.subset (hown rid hma ▸ hIdMem1)
                    · refine ⟨fun hv => (hattr1' rid hmb).1
                        (List.mem_append_left _ hv), ?_⟩
                      exact (hattr1' rid hmb).2
    | incs fk todo cur lvl =>
      cases todo with
      | nil =>
        simp only [interp] at h
        simp only [Except.ok.injEq, Prod.mk.injEq] at h
        exact ⟨[], by simp [← h.1], List.nodup_nil, by simp⟩
      | cons inc rest =>
        simp only [interp] at h
        split at h
        · simp only [Except.ok.injEq, Prod.mk.injEq] at h
          exact ⟨[], by simp [← h.1], List.nodup_nil, by simp⟩
        · split at h
          · split at h
            · cases h
            · rename_i st1 v1 hrt
              have hgrowA := interp_grow pc gic n _ _ _ _ _ hrt
              have hgrowB := interp_grow pc gic n _ _ _ _ _ h
              have hpresA := interp_preserved pc gic n _ _ _ _ _ hrt
              obtain ⟨new1, hep1, hnd1, hattr1⟩ := ih _ _ _ _ _ hrt
              obtain ⟨new2, hep2, hnd2, hattr2⟩ := ih _ _ _ _ _ h
              have hattr2' : ∀ rid ∈ new2,
                  attrId st.files rid.1 rid.2.1 ∉ v1 ∧
                  attrId st.files rid.1 rid.2.1 ∈ v' := by
                intro rid hm
                have hx := hattr2 rid hm
                rwa [hpresA.2 rid.1 rid.2.1] at hx
              refine ⟨new1 ++ new2, ?_, ?_, ?_⟩
              · rw [hep2, hep1]
                simp [List.append_assoc]
              · refine List.nodup_append.mpr ⟨hnd1, hnd2, ?_⟩
                intro rid h1 h2
                exact (hattr2' rid h2).1 (hattr1 rid h1).2
              · intro rid hm
                rcases List.mem_append.mp hm with hm1 | hm2
                · exact ⟨(hattr1 rid hm1).1, hgrowB.subset (hattr1 rid hm1).2⟩
                · exact ⟨fun hv => (hattr2' rid hm2).1 (hgrowA.subset hv),
                    (hattr2' rid hm2).2⟩
          · obtain ⟨new2, hep2, hnd2, hattr2⟩ := ih _ _ _ _ _ h
            exact ⟨new2, hep2, hnd2, hattr2⟩
    | children todo cur lvl =>
      cases todo with
      | nil =>
        simp only [interp] at h
        simp only [Except.ok.injEq, Prod.mk.injEq] at h
        exact ⟨[], by simp [← h.1], List.nodup_nil, by simp⟩
      | cons child_id rest =>
        simp only [interp] at h
        split at h
        · split at h
          · split at h
            · cases h
            · rename_i st1 v1 hrt
              have hgrowA := interp_grow pc gic n _ _ _ _ _ hrt
              have hgrowB := interp_grow pc gic n _ _ _ _ _ h
              have hpresA := interp_preserved pc gic n _ _ _ _ _ hrt
              obtain ⟨new1, hep1, hnd1, hattr1⟩ := ih _ _ _ _ _ hrt
              obtain ⟨new2, hep2, hnd2, hattr2⟩ := ih _ _ _ _ _ h
              have hattr2' : ∀ rid ∈ new2,
                  attrId st.files rid.1 rid.2.1 ∉ v1 ∧
                  attrId st.files rid.1 rid.2.1 ∈ v' := by
                intro rid hm
                have hx := hattr2 rid hm
                rwa [hpresA.2 rid.1 rid.2.1] at hx
              refine ⟨new1 ++ new2, ?_, ?_, ?_⟩
              · rw [hep2, hep1]
                simp [List.append_assoc]
              · refine List.nodup_append.mpr ⟨hnd1, hnd2, ?_⟩
                intro rid h1 h2
                exact (hattr2' rid h2).1 (hattr1 rid h1).2
              · intro rid hm
                rcases List.mem_append.mp hm with hm1 | hm2
                · exact ⟨(hattr1 rid hm1).1, hgrowB.subset (hattr1 rid hm1).2⟩
                · exact ⟨fun hv => (hattr2' rid hm2).1 (hgrowA.subset hv),
                    (hattr2' rid hm2).2⟩
          · obtain ⟨new2, hep2, hnd2, hattr2⟩ := ih _ _ _ _ _ h
            exact ⟨new2, hep2, hnd2, hattr2⟩
        · cases h

/-! ## C1: cycle termination and emission multiplicity -/

/-- Whether router `src` manually includes router `dst` (one resolvable
`include_router` edge). -/
def manualIncludeEdge (files : Store) (src dst : String × String) : Bool :=
  match lookupFD files src.1 with
  | some fd =>
    match alistGet fd.routers src.2 with
    | some r => r.includes.any (fun inc =>
        resolve_router_ref files src.1 fd inc.router_var = some dst)
    | none => false
  | none => false

/-- Whether a list of router addresses is a chain of manual-include edges. -/
def isIncludeChain (files : Store) : List (String × String) → Bool
  | [] => false
  | [_] => true
  | a :: b :: rest => manualIncludeEdge files a b && isIncludeChain files (b :: rest)

/-- The cyclic store of §8: `app` includes `ra`, `ra` includes `rb`,
`rb` includes `ra` back. -/
def cycFd : FileData :=
  { file_path := "m.py"
    routers :=
      [("app", { var_name := "app", includes := [⟨"ra", ""⟩] }),
       ("ra", { var_name := "ra", pfx := "/a", includes := [⟨"rb", ""⟩],
                routes := [{ path := "/x", method := "GET", router_var := "ra",
                             lineno := 1, file_path := "m.py" }] }),
       ("rb", { var_name := "rb", pfx := "/b", includes := [⟨"ra", ""⟩],
                routes := [{ path := "/y", method := "GET", router_var := "rb",
                             lineno := 2, file_path := "m.py" }] })]
    app_var := some "app" }

/-- The store for the cycle instance. -/
def cycStore : Store := [("m.py", cycFd)]

/-- A diamond: `app` includes `rb` and `rc`, and both include `rd`, whose
single route is therefore reachable along two distinct inclusion paths. -/
def diamondFd : FileData :=
  { file_path := "m.py"
    routers :=
      [("app", { var_name := "app", includes := [⟨"rb", ""⟩, ⟨"rc", ""⟩] }),
       ("rb", { var_name := "rb", pfx := "/b", includes := [⟨"rd", ""⟩] }),
       ("rc", { var_name := "rc", pfx := "/c", includes := [⟨"rd", ""⟩] }),
       ("rd", { var_name := "rd",
                routes := [{ path := "/d", method := "GET", router_var := "rd",
                             lineno := 3, file_path := "m.py" }] })]
    app_var := some "app" }

/-- The store for the diamond instance. -/
def diamondStore : Store := [("m.py", diamondFd)]

/-- C1, counterexample.  In the diamond store the router `rd` is
reachable from the entry point along two distinct traversal paths
(`app → rb → rd` and `app → rc → rd`), yet its route is emitted exactly
once, not once per path: the `visited` set is shared across the whole
entry-point traversal, so "exactly once per traversal path by which its
router is reachable" fails. -/
theorem C1_counterexample :
    isIncludeChain diamondStore
        [("m.py", "app"), ("m.py", "rb"), ("m.py", "rd")] = true
  ∧ isIncludeChain diamondStore
        [("m.py", "app"), ("m.py", "rc"), ("m.py", "rd")] = true
  ∧ ([("m.py", "app"), ("m.py", "rb"), ("m.py", "rd")] : List (String × String))
      ≠ [("m.py", "app"), ("m.py", "rc"), ("m.py", "rd")]
  ∧ (match run_resolve diamondStore [] with
     | Except.ok st => st.endpoints.count (("m.py", "rd", 0) : RouteId)
     | Except.error _ => 0) = 1
  ∧ (1 : Nat) ≠ 2 :=
  ⟨by decide, by decide, by decide, by decide, by decide⟩

/-- C1 (amended: within one entry-point traversal each reachable route is
emitted exactly once — at most once even when its router is reachable by
several traversal paths, because the visited set is shared across the
entire entry-point traversal — never infinitely).  Conjuncts: (1) the
Pass-B depth-first traversal terminates: with fuel `passBFuel` the
interpreter never exhausts its fuel and the result is independent of any
larger fuel, for every fact store, parent/child index and entry router,
cyclic or not; (2) every successful entry-point traversal appends a
duplicate-free list of route occurrences to `endpoints`; (3) in the
concrete cyclic store (`app` includes `ra`, `ra` includes `rb`, `rb`
includes `ra`) the traversal terminates and emits each reachable route
exactly once. -/
theorem C1_traversal :
    (∀ (pc : List (String × List String)) (gic : List String)
        (fk vn pfx : String) (lvl : Nat) (st : RState) (f : Nat),
      passBFuel st.files pc ≤ f →
      interp pc gic f (RCall.router fk vn pfx lvl) [] st
        = interp pc gic (passBFuel st.files pc) (RCall.router fk vn pfx lvl) [] st
      ∧ interp pc gic f (RCall.router fk vn pfx lvl) [] st
        ≠ Except.error "out of fuel")
  ∧ (∀ (pc : List (String × List String)) (gic : List String)
        (fk vn pfx : String) (lvl : Nat) (st st' : RState) (v' : List String)
        (f : Nat),
      interp pc gic f (RCall.router fk vn pfx lvl) [] st = Except.ok (st', v') →
      ∃ new, st'.endpoints = st.endpoints ++ new ∧ new.Nodup)
  ∧ (match run_resolve cycStore [] with
     | Except.ok st => some st.endpoints
     | Except.error _ => none) = some [("m.py", "ra", 0), ("m.py", "rb", 0)] := by
  refine ⟨?_, ?_, by decide⟩
  · intro pc gic fk vn pfx lvl st f hf
    have hb : callBound st.files pc [] (RCall.router fk vn pfx lvl)
        = passBFuel st.files pc := rfl
    constructor
    · exact interp_fuel_stable pc gic f (passBFuel st.files pc)
        (RCall.router fk vn pfx lvl) [] st (hb ▸ hf) (hb ▸ le_rfl)
    · exact interp_no_fuelout pc gic f (RCall.router fk vn pfx lvl) [] st (hb ▸ hf)
  · intro pc gic fk vn pfx lvl st st' v' f h
    obtain ⟨new, h1, h2, _⟩ := interp_emit_nodup pc gic f _ _ _ _ _ h
    exact ⟨new, h1, h2⟩

/-- Witness for C1: the termination conjunct applied to the concrete
cyclic store with surplus fuel — the traversal's result at fuel 20 equals
the result at the computed bound (13), and emission nodup at the cycle. -/
theorem C1_traversal_witness :
    interp (buildHierarchy cycStore) [] 20 (RCall.router "m.py" "app" "" 0) []
        { files := cycStore, endpoints := [] }
      = interp (buildHierarchy cycStore) []
          (passBFuel cycStore (buildHierarchy cycStore))
          (RCall.router "m.py" "app" "" 0) []
          { files := cycStore, endpoints := [] } :=
  (C1_traversal.1 (buildHierarchy cycStore) [] "m.py" "app" "" 0
    { files := cycStore, endpoints := [] } 20 (by decide)).1

/-! ## C5: route finalization -/

/-- C5 (confirmed).  For every store and every route whose file and owning
router resolve (`files[route.file_path].routers[route.router_var]`), and
which carries no explicit request/response model name: finalization
succeeds, sets `grouped` to the concatenation services ++ database ++
external ++ utilities in that order, leaves `tables` and `apiCalls` as
separate untouched lists, and assigns the owning router's conventional
default schemas by exact `(method, route-local path)` match — POST+"/" →
create, PUT+"/{id}" → update, GET+"/" → list, GET+"/{id}" → retrieve —
matched against the route's own `path`, never its resolved `full_path`
(which is irrelevant to and unchanged by finalization). -/
theorem C5_finalize (files : Store) (rid : RouteId) (route : RouteDef)
    (fd : FileData) (rdef : RouterDef)
    (hroute : getRoute files rid = some route)
    (hfd : lookupFD files route.file_path = some fd)
    (hrdef : alistGet fd.routers route.router_var = some rdef)
    (hreq : route.request_model_name = none)
    (hresp : route.response_model_name = none) :
    ∃ files', finalize_route files rid = Except.ok files' ∧
      ∃ route', getRoute files' rid = some route' ∧
        route'.dependencies.grouped = some (route.dependencies.services ++
          route.dependencies.database ++ route.dependencies.external ++
          route.dependencies.utilities) ∧
        route'.dependencies.tables = route.dependencies.tables ∧
        route'.dependencies.apiCalls = route.dependencies.apiCalls ∧
        route'.request_model_name =
          (if route.method = "POST" ∧ route.path = "/" then rdef.create_schema
           else if route.method = "PUT" ∧ route.path = "/{id}" then
             rdef.update_schema
           else none) ∧
        route'.response_model_name =
          (if route.method = "GET" ∧ route.path = "/" then rdef.list_schema
           else if route.method = "GET" ∧ route.path = "/{id}" then
             rdef.retrieve_schema
           else none) ∧
        route'.full_path = route.full_path ∧
        route'.path = route.path ∧ route'.method = route.method := by
  unfold finalize_route
  rw [hroute]
  simp only [hfd, hreq, hresp, hrdef, pyStrTruthy, Bool.not_false]
  refine ⟨_, rfl, ?_⟩
  rw [getRoute_updateRoute, hroute]
  simp only [Option.map_some', if_pos rfl]
  refine ⟨_, rfl, ?_⟩
  by_cases h1 : route.method = "POST"
  <;> by_cases h2 : route.path = "/"
  <;> by_cases h3 : route.method = "PUT"
  <;> by_cases h4 : route.path = "/\x7bid\x7d"
  <;> by_cases h5 : route.method = "GET"
  <;> simp_all
  <;> split
  <;> simp_all

/-- The route for the C5 witness: explicit `full_path` different from the
route-local `path`, to exhibit that defaults match on `path` alone. -/
def c5route : RouteDef :=
  { path := "/", method := "POST", router_var := "r", lineno := 5,
    file_path := "a.py", full_path := "/api/items" }

/-- The owning router for the C5 witness, with a create default schema. -/
def c5router : RouterDef :=
  { var_name := "r", pfx := "/api/items", create_schema := some "ItemCreate",
    routes := [c5route] }

/-- The file for the C5 witness. -/
def c5fd : FileData := { file_path := "a.py", routers := [("r", c5router)] }

/-- The store for the C5 witness. -/
def c5files : Store := [("a.py", c5fd)]

/-- Witness for C5: at the concrete POST route with local path `"/"` but
full path `"/api/items"`, finalization assigns the create default (the
own-path match fires although the full path is not `"/"`), groups the
dependency categories, and leaves tables/apiCalls separate. -/
theorem C5_finalize_witness :
    ∃ files', finalize_route c5files ("a.py", "r", 0) = Except.ok files' ∧
      ∃ route', getRoute files' ("a.py", "r", 0) = some route' ∧
        route'.dependencies.grouped = some (c5route.dependencies.services ++
          c5route.dependencies.database ++ c5route.dependencies.external ++
          c5route.dependencies.utilities) ∧
        route'.dependencies.tables = c5route.dependencies.tables ∧
        route'.dependencies.apiCalls = c5route.dependencies.apiCalls ∧
        route'.request_model_name =
          (if c5route.method = "POST" ∧ c5route.path = "/" then
             c5router.create_schema
           else if c5route.method = "PUT" ∧ c5route.path = "/\x7bid\x7d" then
             c5router.update_schema
           else none) ∧
        route'.response_model_name =
          (if c5route.method = "GET" ∧ c5route.path = "/" then
             c5router.list_schema
           else if c5route.method = "GET" ∧ c5route.path = "/\x7bid\x7d" then
             c5router.retrieve_schema
           else none) ∧
        route'.full_path = c5route.full_path ∧
        route'.path = c5route.path ∧ route'.method = c5route.method :=
  C5_finalize c5files ("a.py", "r", 0) c5route c5fd c5router
    (by decide) (by decide) (by decide) rfl rfl

/-! ## C6: the degenerate (no entry point) mode -/

/-- The §3 data-model invariants a fact store built by the scan phase
always satisfies: dict keys are unique (file keys, router names per
file), every route's `file_path` is the key of the file that owns it, and
hence the declared-route enumeration has no duplicates. -/
def storeWF (files : Store) : Bool :=
  decide (files.map Prod.fst).Nodup &&
  files.all (fun p =>
    decide (p.2.routers.map Prod.fst).Nodup &&
    p.2.routers.all (fun q =>
      q.2.routes.all (fun route => route.file_path = p.1))) &&
  decide (allRouteIds files).Nodup

theorem alistGet_of_nodup {α : Type} {l : List (String × α)} {k : String} {v : α}
    (hnd : (l.map Prod.fst).Nodup) (hmem : (k, v) ∈ l) :
    alistGet l k = some v := by
  induction l with
  | nil => simp at hmem
  | cons p t ih =>
    rcases List.mem_cons.mp hmem with rfl | hm
    · unfold alistGet
      simp [List.find?_cons_of_pos]
    · have hk : p.1 ≠ k := by
        intro hcon
        have : k ∈ t.map Prod.fst := List.mem_map.mpr ⟨(k, v), hm, rfl⟩
        rw [List.map_cons, List.nodup_cons, hcon] at hnd
        exact hnd.1 this
      unfold alistGet
      rw [List.find?_cons_of_neg _ (by simpa using hk)]
      exact ih (by
        rw [List.map_cons, List.nodup_cons] at hnd
        exact hnd.2) hm

theorem lookupFD_isSome_of_key {files : Store} {k : String}
    (h : k ∈ files.map Prod.fst) : (lookupFD files k).isSome = true := by
  unfold lookupFD alistGet
  obtain ⟨p, hp, hk⟩ := List.mem_map.mp h
  have : (files.find? (fun q => q.1 = k)).isSome = true :=
    List.find?_isSome.mpr ⟨p, hp, by simpa using hk⟩
  rcases hfind : files.find? (fun q => q.1 = k) with _ | q
  · rw [hfind] at this
    cases this
  · rw [hfind]
    rfl

theorem lookupFD_isSome_updateRoute (files : Store) (rid : RouteId)
    (f : RouteDef → RouteDef) (k : String) :
    (lookupFD (updateRoute files rid f) k).isSome = (lookupFD files k).isSome := by
  rw [lookupFD_updateRoute]
  rcases lookupFD files k with _ | fd <;> rfl

theorem finalize_lookup_isSome {files files' : Store} {rid : RouteId}
    (h : finalize_route files rid = Except.ok files') (k : String) :
    (lookupFD files' k).isSome = (lookupFD files k).isSome := by
  rcases finalize_route_shape h with rfl | ⟨g, rfl⟩
  · rfl
  · exact lookupFD_isSome_updateRoute files rid g k

theorem getRoute_untouched_update (files : Store) (rid rid' : RouteId)
    (f : RouteDef → RouteDef) (hne : rid' ≠ rid) :
    getRoute (updateRoute files rid f) rid' = getRoute files rid' := by
  rw [getRoute_updateRoute]
  rcases getRoute files rid' with _ | r
  · rfl
  · simp [hne]

theorem getRoute_untouched_finalize {files files' : Store} {rid : RouteId}
    (h : finalize_route files rid = Except.ok files') (rid' : RouteId)
    (hne : rid' ≠ rid) : getRoute files' rid' = getRoute files rid' := by
  rcases finalize_route_shape h with rfl | ⟨g, rfl⟩
  · rfl
  · exact getRoute_untouched_update files rid rid' g hne

set_option maxHeartbeats 2000000 in
/-- Finalization succeeds whenever the route's `file_path` is a known
file key, and it only adds `grouped` and schema information: `full_path`,
`path`, `method`, the four category lists, `tables` and `apiCalls` are
unchanged. -/
theorem finalize_route_ok_of_lookup {files : Store} {rid : RouteId}
    {route : RouteDef} {fd : FileData}
    (hroute : getRoute files rid = some route)
    (hfd : lookupFD files route.file_path = some fd) :
    ∃ files', finalize_route files rid = Except.ok files' ∧
      ∃ route', getRoute files' rid = some route' ∧
        route'.full_path = route.full_path ∧
        route'.path = route.path ∧
        route'.method = route.method ∧
        route'.dependencies.grouped = some (route.dependencies.services ++
          route.dependencies.database ++ route.dependencies.external ++
          route.dependencies.utilities) ∧
        route'.dependencies.services = route.dependencies.services ∧
        route'.dependencies.tables = route.dependencies.tables ∧
        route'.dependencies.apiCalls = route.dependencies.apiCalls := by
  unfold finalize_route
  rw [hroute]
  simp only [hfd]
  rcases halg : alistGet fd.routers route.router_var with _ | rd <;>
    (simp only [halg]
     refine ⟨_, rfl, ?_⟩
     rw [getRoute_updateRoute, hroute]
     simp only [Option.map_some', if_true]
     refine ⟨_, rfl, ?_, ?_, ?_, ?_, ?_, ?_, ?_⟩ <;>
       simp only [apply_ite RouteDef.full_path, apply_ite RouteDef.path,
         apply_ite RouteDef.method, apply_ite RouteDef.dependencies,
         apply_ite Dependencies.grouped, apply_ite Dependencies.services,
         apply_ite Dependencies.tables, apply_ite Dependencies.apiCalls,
         ite_self])

theorem degenerateRun_spec :
    ∀ (rids : List RouteId) (st : RState),
      rids.Nodup →
      (∀ rid ∈ rids, ∃ route, getRoute st.files rid = some route ∧
        (lookupFD st.files route.file_path).isSome = true) →
      ∃ st', degenerateRun rids st = Except.ok st' ∧
        st'.endpoints = st.endpoints ++ rids ∧
        (∀ rid, rid ∉ rids → getRoute st'.files rid = getRoute st.files rid) ∧
        (∀ rid ∈ rids, ∃ route route',
          getRoute st.files rid = some route ∧
          getRoute st'.files rid = some route' ∧
          route'.full_path = route.path ∧
          route'.dependencies.grouped = some (route.dependencies.services ++
            route.dependencies.database ++ route.dependencies.external ++
            route.dependencies.utilities) ∧
          route'.dependencies.tables = route.dependencies.tables ∧
          route'.dependencies.apiCalls = route.dependencies.apiCalls) := by
  intro rids
  induction rids with
  | nil =>
    intro st _ _
    exact ⟨st, rfl, by simp, fun _ _ => rfl, by simp⟩
  | cons rid rest ih =>
    intro st hnd hpre
    obtain ⟨r0, hr0, hfs⟩ := hpre rid (List.mem_cons_self rid rest)
    -- step 1: full_path := path
    have hr1 : getRoute (updateRoute st.files rid
        (fun r => { r with full_path := r.path })) rid
        = some { r0 with full_path := r0.path } := by
      rw [getRoute_updateRoute, hr0]
      simp
    have hfs1 : (lookupFD (updateRoute st.files rid
        (fun r => { r with full_path := r.path }))
        ({ r0 with full_path := r0.path } : RouteDef).file_path).isSome = true := by
      rw [lookupFD_isSome_updateRoute]
      exact hfs
    obtain ⟨fd1, hfd1⟩ := Option.isSome_iff_exists.mp hfs1
    obtain ⟨files2, hfin, route2, hget2, hfull2, hpath2, hmeth2, hgrp2, hsvc2,
      htab2, hapi2⟩ := finalize_route_ok_of_lookup hr1 hfd1
    have hnd' := (List.nodup_cons.mp hnd).2
    have hnotin := (List.nodup_cons.mp hnd).1
    -- the step leaves every other route untouched
    have huntouched : ∀ rid', rid' ≠ rid →
        getRoute files2 rid' = getRoute st.files rid' := by
      intro rid' hne
      rw [getRoute_untouched_finalize hfin rid' hne,
        getRoute_untouched_update _ _ _ _ hne]
    have hlook2 : ∀ k, (lookupFD files2 k).isSome = (lookupFD st.files k).isSome := by
      intro k
      rw [finalize_lookup_isSome hfin, lookupFD_isSome_updateRoute]
    -- apply the induction hypothesis to the remaining routes
    obtain ⟨st', hrun, hep, hout, hdone⟩ := ih
      { files := files2, endpoints := st.endpoints ++ [rid] } hnd'
      (by
        intro rid' hm
        obtain ⟨route, hroute, hlk⟩ := hpre rid' (List.mem_cons_of_mem _ hm)
        refine ⟨route, ?_, ?_⟩
        · rw [huntouched rid' (fun hcon => hnotin (hcon ▸ hm))]
          exact hroute
        · rw [hlook2]
          exact hlk)
    refine ⟨st', ?_, ?_, ?_, ?_⟩
    · unfold degenerateRun
      rw [hfin]
      exact hrun
    · rw [hep]
      simp
    · intro rid' hm
      have hne : rid' ≠ rid := fun hcon => hm (hcon ▸ List.mem_cons_self rid rest)
      have hrest : rid' ∉ rest := fun hcon => hm (List.mem_cons_of_mem _ hcon)
      rw [hout rid' hrest]
      exact huntouched rid' hne
    · intro rid' hm
      rcases List.mem_cons.mp hm with rfl | hmr
      · refine ⟨r0, route2, hr0, ?_, ?_, ?_, ?_, ?_⟩
        · rw [hout rid' hnotin]
          exact hget2
        · exact hfull2
        · exact hgrp2
        · exact htab2
        · exact hapi2
      · obtain ⟨route, route', hroute, hroute', hf, hg, ht, ha⟩ := hdone rid' hmr
        refine ⟨route, route', ?_, hroute', hf, hg, ht, ha⟩
        rw [huntouched rid' (fun hcon => hnotin (hcon ▸ hmr))] at hroute
        exact hroute

/-- C6 (confirmed).  For every well-formed fact store (unique dict keys,
every route owned by the file it names — the §3 invariants) containing no
router bound to an application variable, the resolve phase succeeds and
emits exactly one resolved route per declared route across all files and
routers, in declaration order, each with `full_path` equal to its raw
route-local `path` (no prefix composition) and with dependency
finalization applied (the `grouped` concatenation is attached). -/
theorem C6_degenerate (files : Store) (gic : List String)
    (hwf : storeWF files = true)
    (hnoapp : appsOf files = []) :
    ∃ st', run_resolve files gic = Except.ok st' ∧
      st'.endpoints = allRouteIds files ∧
      ∀ rid ∈ allRouteIds files, ∃ route route',
        getRoute files rid = some route ∧
        getRoute st'.files rid = some route' ∧
        route'.full_path = route.path ∧
        route'.dependencies.grouped = some (route.dependencies.services ++
          route.dependencies.database ++ route.dependencies.external ++
          route.dependencies.utilities) := by
  have hwf' := hwf
  simp only [storeWF, Bool.and_eq_true, decide_eq_true_eq, List.all_eq_true] at hwf'
  obtain ⟨⟨hknd, hfiles⟩, hridnd⟩ := hwf'
  have hpre : ∀ rid ∈ allRouteIds files, ∃ route,
      getRoute files rid = some route ∧
      (lookupFD files route.file_path).isSome = true := by
    intro rid hm
    unfold allRouteIds at hm
    obtain ⟨p, hp, hm2⟩ := List.mem_flatMap.mp hm
    obtain ⟨q, hq, hm3⟩ := List.mem_flatMap.mp hm2
    obtain ⟨i, hi, rfl⟩ := List.mem_map.mp hm3
    have hi' : i < q.2.routes.length := List.mem_range.mp hi
    obtain ⟨route, hroute⟩ : ∃ route, q.2.routes.get? i = some route := by
      rcases hgr : q.2.routes.get? i with _ | r
      · rw [List.get?_eq_none] at hgr
        omega
      · exact ⟨r, rfl⟩
    have hfl := hfiles p hp
    refine ⟨route, ?_, ?_⟩
    · unfold getRoute
      have h1 : lookupFD files p.1 = some p.2 :=
        alistGet_of_nodup hknd (by simpa using hp)
      rw [h1]
      simp only [Option.bind_eq_bind, Option.some_bind]
      have h2 : alistGet p.2.routers q.1 = some q.2 :=
        alistGet_of_nodup hfl.1 (by simpa using hq)
      rw [h2]
      simpa using hroute
    · have hmem : route ∈ q.2.routes := List.get?_mem hroute
      have hfp : route.file_path = p.1 := hfl.2 q hq route hmem
      rw [hfp]
      exact lookupFD_isSome_of_key (List.mem_map.mpr ⟨p, hp, rfl⟩)
  obtain ⟨st', hrun, hep, hout, hdone⟩ := degenerateRun_spec (allRouteIds files)
    { files := files, endpoints := [] } hridnd hpre
  refine ⟨st', ?_, by simpa using hep, ?_⟩
  · unfold run_resolve resolve
    rw [hnoapp]
    simpa using hrun
  · intro rid hm
    obtain ⟨route, route', h1, h2, h3, h4, h5, h6⟩ := hdone rid hm
    exact ⟨route, route', h1, h2, h3, h4⟩

/-- Store for the C6 witness: one file, two routers (neither bound to an
app variable), two routes. -/
def c6fd : FileData :=
  { file_path := "m.py",
    routers :=
      [("r", { var_name := "r", routes :=
          [{ path := "/x", method := "GET", router_var := "r", lineno := 1,
             file_path := "m.py" }] }),
       ("s", { var_name := "s", pfx := "/api", routes :=
          [{ path := "/y/", method := "POST", router_var := "s", lineno := 2,
             file_path := "m.py" }] })] }

/-- The C6 witness store. -/
def c6files : Store := [("m.py", c6fd)]

/-- Witness for C6: the concrete no-app two-router store satisfies the
hypotheses and the resolve phase emits both routes. -/
theorem C6_degenerate_witness :
    storeWF c6files = true ∧ appsOf c6files = [] ∧
    (∃ st', run_resolve c6files [] = Except.ok st' ∧
      st'.endpoints = allRouteIds c6files ∧
      ∀ rid ∈ allRouteIds c6files, ∃ route route',
        getRoute c6files rid = some route ∧
        getRoute st'.files rid = some route' ∧
        route'.full_path = route.path ∧
        route'.dependencies.grouped = some (route.dependencies.services ++
          route.dependencies.database ++ route.dependencies.external ++
          route.dependencies.utilities)) :=
  ⟨by decide, by decide, C6_degenerate c6files [] (by decide) (by decide)⟩

/-- A file whose on-disk name contains a colon (legal on POSIX
filesystems) owning a child router whose `parent_var` resolves to the
application router in `app.py`. -/
def colonRoute : RouteDef :=
  { path := "/x", method := "GET", router_var := "r",
    lineno := 3, file_path := "we:ird.py" }

/-- The colon-named file's router (a child of the app router). -/
def colonRouter : RouterDef :=
  { var_name := "r", parent_var := some "papp", routes := [colonRoute] }

/-- The colon-named file. -/
def colonFd : FileData :=
  { file_path := "we:ird.py",
    imports := [("papp", "app")],
    routers := [("r", colonRouter)] }

/-- The application file for the C9 input: its router has
`includes_children`, so the traversal walks the magic parent/child map. -/
def colonAppFd : FileData :=
  { file_path := "app.py", app_var := some "app",
    routers := [("app", { var_name := "app", includes_children := true })] }

/-- The C9 failing fact store. -/
def colonFiles : Store := [("app.py", colonAppFd), ("we:ird.py", colonFd)]

/-- C9 (code bug).  The resolve phase is NOT exception-free on every
input fact store: the hierarchy map keys children as
`file_path + ":" + var_name`, and the children loop of `_resolve_router`
unpacks each key with `c_file, c_var = child_id.split(':')`, which
raises `ValueError` as soon as a scanned file's path itself contains a
colon.  The store `colonFiles` is well-formed by the data-model
invariants, yet `resolve` returns the raised exception instead of a
route list. -/
theorem C9_exception :
    storeWF colonFiles = true ∧
    run_resolve colonFiles [] =
      Except.error "ValueError: not enough values to unpack child_id.split(':')" := by
  exact ⟨by decide, rfl⟩

/-! ## Serialization (`json.dumps([r.to_dict() for r in scanner.endpoints])`)

A JSON value as built by the `to_dict` methods; `json.dumps` is injective
on this representation (dict insertion order is the field-list order). -/

/-- A JSON value. -/
inductive JVal where
  | s (v : String)
  | n (v : Nat)
  | b (v : Bool)
  | null
  | arr (items : List JVal)
  | obj (fields : List (String × JVal))

/-- `None` serializes to `null`, a string to itself. -/
def jOfOptS : Option String → JVal
  | some v => JVal.s v
  | none => JVal.null

/-- `SchemaField.to_dict` (identical in both scanners). -/
def SchemaField.toJ (f : SchemaField) : JVal :=
  JVal.obj [("name", JVal.s f.name), ("type", JVal.s f.type_name),
    ("required", JVal.b f.required)]

/-- One `_add_dep` entry as serialized inside the dependencies dict. -/
def DepGroup.toJ (g : DepGroup) : JVal :=
  JVal.obj [("module", JVal.s g.module), ("moduleLabel", JVal.s g.moduleLabel),
    ("type", JVal.s g.type), ("items", JVal.arr (g.items.map JVal.s)),
    ("count", JVal.n g.count)]

/-- The `dependencies` dict: the six `__init__` keys in insertion order,
then `"grouped"` appended at the end if `_finalize_route` ran. -/
def Dependencies.toJ (d : Dependencies) : JVal :=
  JVal.obj ([("services", JVal.arr (d.services.map DepGroup.toJ)),
    ("database", JVal.arr (d.database.map DepGroup.toJ)),
    ("external", JVal.arr (d.external.map DepGroup.toJ)),
    ("utilities", JVal.arr (d.utilities.map DepGroup.toJ)),
    ("tables", JVal.arr (d.tables.map JVal.s)),
    ("apiCalls", JVal.arr (d.apiCalls.map JVal.s))] ++
    (match d.grouped with
     | some g => [("grouped", JVal.arr (g.map DepGroup.toJ))]
     | none => []))

/-- `RouteDef.to_dict` of the modular scanner (`core/models.py`): emits
`"function_name"` between `"full_path"` and `"dependencies"`. -/
def toDictModular (r : RouteDef) : JVal :=
  JVal.obj [("path", JVal.s r.path), ("method", JVal.s r.method),
    ("router_var", JVal.s r.router_var), ("lineno", JVal.n r.lineno),
    ("file_path", JVal.s r.file_path),
    ("full_path", JVal.s (if r.full_path = "" then r.path else r.full_path)),
    ("function_name", jOfOptS r.function_name),
    ("dependencies", r.dependencies.toJ),
    ("request_schema", JVal.arr (r.request_schema.map SchemaField.toJ)),
    ("response_schema", JVal.arr (r.response_schema.map SchemaField.toJ))]

/-- `RouteDef.to_dict` of the monolithic scanner (`scripts/scanner.py`):
its `RouteDef` has no `function_name` attribute and its `to_dict` emits
no such key. -/
def toDictMono (r : RouteDef) : JVal :=
  JVal.obj [("path", JVal.s r.path), ("method", JVal.s r.method),
    ("router_var", JVal.s r.router_var), ("lineno", JVal.n r.lineno),
    ("file_path", JVal.s r.file_path),
    ("full_path", JVal.s (if r.full_path = "" then r.path else r.full_path)),
    ("dependencies", r.dependencies.toJ),
    ("request_schema", JVal.arr (r.request_schema.map SchemaField.toJ)),
    ("response_schema", JVal.arr (r.response_schema.map SchemaField.toJ))]

/-- The printed route list: `endpoints` holds object identities, so each
entry is serialized from the final (post-traversal) state of its object. -/
def printedWith (toDict : RouteDef → JVal) (files : Store) (gic : List String) :
    Except String (List JVal) :=
  match run_resolve files gic with
  | Except.error e => Except.error e
  | Except.ok st =>
    Except.ok (st.endpoints.map (fun rid => toDict (getRouteD st.files rid)))

/-- `print(json.dumps(...))` of the modular scanner. -/
def printedModular (files : Store) (gic : List String) : Except String (List JVal) :=
  printedWith toDictModular files gic

/-- `print(json.dumps(...))` of the monolithic scanner. -/
def printedMono (files : Store) (gic : List String) : Except String (List JVal) :=
  printedWith toDictMono files gic

/-- Top-level keys of a serialized object. -/
def JVal.keys : JVal → List String
  | JVal.obj fs => fs.map Prod.fst
  | _ => []

/-! ## C7: the shared route used by the two-entry-point store -/

/-- The single route of `users.py`, included by both applications. -/
def c7route : RouteDef :=
  { path := "/x", method := "GET", router_var := "u", lineno := 1,
    file_path := "users.py" }

/-- The shared router. -/
def c7usersRouter : RouterDef := { var_name := "u", routes := [c7route] }

/-- `users.py`. -/
def c7usersFd : FileData :=
  { file_path := "users.py", routers := [("u", c7usersRouter)] }

/-- The first application router: includes `u` under prefix `/a`. -/
def c7a1Router : RouterDef :=
  { var_name := "app1", includes := [{ router_var := "u", pfx := "/a" }] }

/-- `a1.py`. -/
def c7a1Fd : FileData :=
  { file_path := "a1.py", app_var := some "app1",
    imports := [("u", "users.u")], routers := [("app1", c7a1Router)] }

/-- The second application router: includes `u` under prefix `/b`. -/
def c7a2Router : RouterDef :=
  { var_name := "app2", includes := [{ router_var := "u", pfx := "/b" }] }

/-- `a2.py`. -/
def c7a2Fd : FileData :=
  { file_path := "a2.py", app_var := some "app2",
    imports := [("u", "users.u")], routers := [("app2", c7a2Router)] }

/-- Two entry points both reaching the one shared route object. -/
def c7files : Store :=
  [("a1.py", c7a1Fd), ("a2.py", c7a2Fd), ("users.py", c7usersFd)]

/-- The same tree with only the first entry point present. -/
def c7filesSingle : Store := [("a1.py", c7a1Fd), ("users.py", c7usersFd)]

/-- The resolved state of the two-entry-point run. -/
def c7st : RState :=
  match run_resolve c7files [] with
  | Except.ok st => st
  | Except.error _ => { files := [], endpoints := [] }

/-- The resolved state of the single-entry-point run. -/
def c7stSingle : RState :=
  match run_resolve c7filesSingle [] with
  | Except.ok st => st
  | Except.error _ => { files := [], endpoints := [] }

set_option maxHeartbeats 1000000 in
/-- C7 (confirmed).  `endpoints` stores the shared `RouteDef` objects by
identity and serialization reads each object's final state, so two
occurrences of the same route object always serialize identically — to
the last write of the derived fields.  Concretely: with two application
entry points `a1.py` (prefix `/a`) and `a2.py` (prefix `/b`) both
including the one route of `users.py`, the route object is emitted twice;
alone with `a1.py` its `full_path` is `/a/x`, but in the two-entry run
the second traversal recomputes and overwrites it, and BOTH printed
occurrences show `/b/x`. -/
theorem C7_last_write :
    (∀ (files : Store) (gic : List String) (st : RState) (i j : Nat)
        (rid : RouteId),
      run_resolve files gic = Except.ok st →
      st.endpoints.get? i = some rid →
      st.endpoints.get? j = some rid →
      (st.endpoints.map (fun r => toDictModular (getRouteD st.files r))).get? i =
        (st.endpoints.map (fun r => toDictModular (getRouteD st.files r))).get? j) ∧
    (∃ st1, run_resolve c7filesSingle [] = Except.ok st1 ∧
      (getRouteD st1.files ("users.py", "u", 0)).full_path = "/a/x") ∧
    run_resolve c7files [] = Except.ok c7st ∧
    c7st.endpoints = [("users.py", "u", 0), ("users.py", "u", 0)] ∧
    (getRouteD c7st.files ("users.py", "u", 0)).full_path = "/b/x" ∧
    c7st.endpoints.map (fun r => (getRouteD c7st.files r).full_path) =
      ["/b/x", "/b/x"] := by
  refine ⟨?_, ⟨c7stSingle, rfl, by decide⟩, rfl, by decide, by decide, by decide⟩
  intro files gic st i j rid _ hi hj
  simp only [List.get?_eq_getElem?] at hi hj ⊢
  rw [List.getElem?_map, List.getElem?_map, hi, hj]

/-- Witness for C7: in the two-entry-point run both occurrences of the
shared route serialize to the same object. -/
theorem C7_last_write_witness :
    (c7st.endpoints.map (fun r => toDictModular (getRouteD c7st.files r))).get? 0 =
      (c7st.endpoints.map (fun r => toDictModular (getRouteD c7st.files r))).get? 1 :=
  C7_last_write.1 c7files [] c7st 0 1 ("users.py", "u", 0) rfl (by decide) (by decide)

/-! ## C10: the two shipped scanners' serializations -/

/-- Insert the `"function_name"` entry right after `"full_path"` (where
the modular `to_dict` places it). -/
def insertFunctionName (fn : Option String) : JVal → JVal
  | JVal.obj fs => JVal.obj (fs.flatMap (fun p =>
      if p.1 = "full_path" then [p, ("function_name", jOfOptS fn)] else [p]))
  | v => v

/-- Keys of the first printed route object (empty on error or empty
output). -/
def headKeys : Except String (List JVal) → List String
  | Except.ok (j :: js) => (fun _ => j.keys) js
  | _ => []

/-- A one-route store on which both scanners hold identical facts and
resolve identically (no apps, no imports): any divergence in the printed
lists is the serializers' doing. -/
def c10route : RouteDef :=
  { path := "/p", method := "GET", router_var := "r", lineno := 7,
    file_path := "f.py", function_name := some "get_p" }

/-- Its router. -/
def c10Router : RouterDef := { var_name := "r", routes := [c10route] }

/-- Its file. -/
def c10fd : FileData := { file_path := "f.py", routers := [("r", c10Router)] }

/-- The C10 store. -/
def c10files : Store := [("f.py", c10fd)]

/-- The resolved state of the C10 store. -/
def c10st : RState :=
  match run_resolve c10files [] with
  | Except.ok st => st
  | Except.error _ => { files := [], endpoints := [] }

/-- Counterexample to C10: on the one-route store where both scanners
hold the same facts and resolve identically, the modular scanner's
printed route object carries the key `"function_name"` and the
monolithic one's does not, so the printed JSON route lists differ. -/
theorem C10_counterexample :
    headKeys (printedModular c10files []) =
      ["path", "method", "router_var", "lineno", "file_path", "full_path",
       "function_name", "dependencies", "request_schema", "response_schema"] ∧
    headKeys (printedMono c10files []) =
      ["path", "method", "router_var", "lineno", "file_path", "full_path",
       "dependencies", "request_schema", "response_schema"] ∧
    printedModular c10files [] ≠ printedMono c10files [] := by
  refine ⟨rfl, rfl, ?_⟩
  intro h
  exact absurd (congrArg headKeys h) (by decide)

/-- C10 (corrected).  The two scanners are not print-equivalent: the
modular `RouteDef.to_dict` emits the extra `"function_name"` entry
directly after `"full_path"`, and that is exactly the difference — every
route serialized by the modular scanner equals the monolithic
serialization of the same object with `"function_name"` inserted, and on
any successful run the two printed lists are the entry-wise image of one
another under that insertion. -/
theorem C10_serialization :
    (∀ r : RouteDef,
      toDictModular r = insertFunctionName r.function_name (toDictMono r)) ∧
    (∀ (files : Store) (gic : List String) (st : RState),
      run_resolve files gic = Except.ok st →
      printedModular files gic = Except.ok (st.endpoints.map (fun rid =>
        insertFunctionName (getRouteD st.files rid).function_name
          (toDictMono (getRouteD st.files rid)))) ∧
      printedMono files gic = Except.ok (st.endpoints.map (fun rid =>
        toDictMono (getRouteD st.files rid)))) := by
  refine ⟨fun r => rfl, ?_⟩
  intro files gic st hrun
  constructor
  · simp only [printedModular, printedWith, hrun]
    rfl
  · simp only [printedMono, printedWith, hrun]

/-- Witness for C10: the insertion law evaluated at the concrete route,
and the printed-list relation at the concrete successful run. -/
theorem C10_serialization_witness :
    toDictModular c10route =
      insertFunctionName c10route.function_name (toDictMono c10route) ∧
    printedModular c10files [] = Except.ok (c10st.endpoints.map (fun rid =>
      insertFunctionName (getRouteD c10st.files rid).function_name
        (toDictMono (getRouteD c10st.files rid)))) :=
  ⟨C10_serialization.1 c10route, (C10_serialization.2 c10files [] c10st rfl).1⟩

/-! ## Dependency graph (`scanner/deps.py`) -/

/-- A graph node dict. -/
structure GNode where
  id : String
  label : String
  type : String
  isExternal : Bool
deriving DecidableEq

/-- A graph edge dict. -/
structure GEdge where
  source : String
  target : String
deriving DecidableEq

/-- The returned `{"nodes": .., "edges": ..}`. -/
structure Graph where
  nodes : List GNode
  edges : List GEdge
deriving DecidableEq

/-- `path_str.split('/')[-1] if '/' in path_str else path_str`. -/
def lastSlashPart (s : String) : String :=
  if pyIn "/" s then (splitSlash s).getLastD s else s

/-- The node dict built by `add_node`. -/
def mkGNode (path_str : String) (is_external : Bool) : GNode :=
  { id := path_str, label := lastSlashPart path_str,
    type := if is_external then "external" else "file",
    isExternal := is_external }

/-- `add_node`: append unless already in the `added_nodes` set. -/
def addNode (nodes : List GNode) (added : List String) (path_str : String)
    (is_external : Bool) : List GNode × List String :=
  if path_str ∈ added then (nodes, added)
  else (nodes ++ [mkGNode path_str is_external], added ++ [path_str])

/-- Python dict assignment `d[k] = v` on an insertion-ordered dict. -/
def alistSet {α : Type} (l : List (String × α)) (k : String) (v : α) :
    List (String × α) :=
  if alistHas l k then l.map (fun p => if p.1 = k then (p.1, v) else p)
  else l ++ [(k, v)]

/-- `str(resolver.root / rel)`: posix path join (the scanner's roots carry
no trailing slash and its file keys are relative). -/
def absPath (root rel : String) : String := root ++ "/" ++ rel

/-- The mutable state of `generate_dependency_graph`. -/
structure GenSt where
  nodes : List GNode
  added : List String
  edges : List GEdge
  nidMap : List (String × String)
deriving DecidableEq

/-- The body of the first loop: every scanned file becomes a node, and
`node_id_map[rel_path] = abs_path`. -/
def genPhase1Go (root : String) : List (String × FileData) → GenSt → GenSt
  | [], st => st
  | p :: rest, st =>
    let ab := absPath root p.1
    let na := addNode st.nodes st.added ab false
    genPhase1Go root rest { st with nodes := na.1, added := na.2, nidMap := alistSet st.nidMap p.1 ab }

/-- The first loop of `generate_dependency_graph`, from the empty state. -/
def genPhase1 (root : String) (files : Store) : GenSt :=
  genPhase1Go root files { nodes := [], added := [], edges := [], nidMap := [] }

/-- The inner loop of the second pass: one edge per import that the
resolver maps to a (truthy) known file, plus the (deduplicated) target
node. -/
def genImports (root : String) (files : Store) (sn : String) :
    List (String × String) → GenSt → GenSt
  | [], st => st
  | imp :: rest, st =>
    match (resolve_module files imp.2).1 with
    | some tf =>
      if tf = "" then genImports root files sn rest st
      else
        let tabs := absPath root tf
        let na := addNode st.nodes st.added tabs false
        genImports root files sn rest
          { st with nodes := na.1, added := na.2, edges := st.edges ++ [{ source := sn, target := tabs }] }
    | none => genImports root files sn rest st

/-- The second loop of `generate_dependency_graph` (`# Build edges`). -/
def genPhase2 (root : String) (files : Store) (nidMap : List (String × String)) :
    Store → GenSt → GenSt
  | [], st => st
  | p :: rest, st =>
    let st1 := match alistGet nidMap p.1 with
      | none => st
      | some sn => if sn = "" then st else genImports root files sn p.2.imports st
    genPhase2 root files nidMap rest st1

/-- `"/".join(n["id"].split('/')[:-1])`. -/
def parentDir (s : String) : String := joinWith "/" ((splitSlash s).dropLast)

/-- The mutable state of the node loop of `aggregate_by_folder`. -/
structure AggSt where
  folder_nodes : List (String × GNode)
  f2f : List (String × String)
deriving DecidableEq

/-- The node loop of `aggregate_by_folder`: external nodes keep their
dict, file nodes collapse to their parent directory. -/
def aggNodes : List GNode → AggSt → AggSt
  | [], st => st
  | n :: rest, st =>
    if n.type = "external" then
      aggNodes rest
        { folder_nodes :=
            if alistHas st.folder_nodes n.id then st.folder_nodes
            else st.folder_nodes ++ [(n.id, n)],
          f2f := alistSet st.f2f n.id n.id }
    else
      aggNodes rest
        { folder_nodes :=
            if alistHas st.folder_nodes (parentDir n.id) then st.folder_nodes
            else st.folder_nodes ++ [(parentDir n.id,
              { id := parentDir n.id,
                label := (splitSlash (parentDir n.id)).getLastD (parentDir n.id),
                type := "folder", isExternal := false })],
          f2f := alistSet st.f2f n.id (parentDir n.id) }

/-- The edge loop: the `folder_edges` set of `"src->dst"` strings, in
insertion order. -/
def aggEdges (f2f : List (String × String)) :
    List GEdge → List String → List String
  | [], fes => fes
  | e :: rest, fes =>
    match alistGet f2f e.source, alistGet f2f e.target with
    | some sf, some tf =>
      if sf ≠ "" ∧ tf ≠ "" ∧ sf ≠ tf then
        aggEdges f2f rest
          (if (sf ++ "->" ++ tf) ∈ fes then fes else fes ++ [sf ++ "->" ++ tf])
      else aggEdges f2f rest fes
    | _, _ => aggEdges f2f rest fes

/-- Python `s.split("->")`: scan left to right, splitting at each
non-overlapping occurrence of the two-character separator. -/
def splitArrowAux : List Char → List Char → List String
  | [], cur => [String.mk cur.reverse]
  | [c], cur => [String.mk (c :: cur).reverse]
  | c :: d :: rest, cur =>
    if c = '-' ∧ d = '>' then String.mk cur.reverse :: splitArrowAux rest []
    else splitArrowAux (d :: rest) (c :: cur)

/-- Python `s.split("->")`. -/
def splitArrow (s : String) : List String := splitArrowAux s.data []

/-- The final loop `src, dst = edge_str.split("->")`: unpacking anything
but a two-element split raises `ValueError`. -/
def decodeEdges : List String → Except String (List GEdge)
  | [] => Except.ok []
  | es :: rest =>
    match splitArrow es with
    | [src, dst] =>
      match decodeEdges rest with
      | Except.ok tl => Except.ok ({ source := src, target := dst } :: tl)
      | Except.error e => Except.error e
    | _ => Except.error "ValueError: edge unpack in aggregate_by_folder"

/-- `aggregate_by_folder`. -/
def aggregate_by_folder (nodes : List GNode) (edges : List GEdge) :
    Except String Graph :=
  let ast := aggNodes nodes { folder_nodes := [], f2f := [] }
  let fes := aggEdges ast.f2f edges []
  match decodeEdges fes with
  | Except.ok final_edges =>
    Except.ok { nodes := ast.folder_nodes.map Prod.snd, edges := final_edges }
  | Except.error e => Except.error e

/-- `generate_dependency_graph` (the exception of the aggregation pass is
the `Except.error`). -/
def generate_dependency_graph (root : String) (files : Store) :
    Except String Graph :=
  let s1 := genPhase1 root files
  let s2 := genPhase2 root files s1.nidMap files s1
  if s2.nodes.length > 30 then aggregate_by_folder s2.nodes s2.edges
  else Except.ok { nodes := s2.nodes, edges := s2.edges }

/-- Specification-side description of the file-level node list: exactly
one `"file"` node per scanned file, in scan order. -/
def genFileNodes (root : String) (files : Store) : List GNode :=
  files.map (fun p => mkGNode (absPath root p.1) false)

/-- Specification-side description of the file-level edge list: one edge
per import that resolves to a known file, nothing for unresolved
imports. -/
def genImportEdges (root : String) (files : Store) : List GEdge :=
  files.flatMap (fun p => p.2.imports.filterMap (fun imp =>
    match (resolve_module files imp.2).1 with
    | some tf =>
      if tf = "" then none
      else some { source := absPath root p.1, target := absPath root tf }
    | none => none))

theorem resolveModuleAux_known (files : Store) (parts : List String) :
    ∀ (n : Nat) (tf : String) (mem : Option String),
      resolveModuleAux files parts n = (some tf, mem) →
      alistHas files tf = true := by
  intro n
  induction n with
  | zero =>
    intro tf mem h
    simp [resolveModuleAux] at h
  | succ i ih =>
    intro tf mem h
    unfold resolveModuleAux at h
    split at h
    · rename_i hrel
      have htf : some (relForm parts (i + 1)) = some tf := congrArg Prod.fst h
      cases htf
      exact hrel
    · split at h
      · rename_i hinit
        have htf : some (initForm parts (i + 1)) = some tf := congrArg Prod.fst h
        cases htf
        exact hinit
      · exact ih tf mem h

theorem resolve_module_known {files : Store} {m tf : String}
    (h : (resolve_module files m).1 = some tf) : alistHas files tf = true := by
  rcases hr : resolve_module files m with ⟨tfo, mem⟩
  rw [hr] at h
  simp only [] at h
  subst h
  unfold resolve_module at hr
  split at hr
  · simp at hr
  · exact resolveModuleAux_known files (splitDot m) (splitDot m).length tf mem hr

theorem absPath_inj {root a b : String} (h : absPath root a = absPath root b) :
    a = b := by
  have hd := congrArg String.data h
  simp only [absPath, String.data_append] at hd
  have h2 := List.append_cancel_left hd
  cases a
  cases b
  simp only [] at h2
  rw [h2]

theorem absPath_ne_empty (root k : String) : absPath root k ≠ "" := by
  intro h
  have hd := congrArg String.data h
  simp only [absPath, String.data_append] at hd
  simp at hd

theorem alistHas_append {α : Type} (l1 l2 : List (String × α)) (k : String) :
    alistHas (l1 ++ l2) k = (alistHas l1 k || alistHas l2 k) := by
  unfold alistHas alistGet
  rw [List.find?_append]
  rcases h : l1.find? (fun p => p.1 = k) with _ | p <;> simp [Option.orElse]

theorem alistHas_singleton {α : Type} (k0 q : String) (v : α) :
    alistHas [(k0, v)] q = decide (k0 = q) := by
  unfold alistHas alistGet
  simp only [List.find?]
  cases hd : decide (k0 = q)
  · simp [hd]
  · simp [hd]

theorem genPhase1Go_spec (root : String) :
    ∀ (files : List (String × FileData)) (st : GenSt),
      (files.map Prod.fst).Nodup →
      (∀ p ∈ files, absPath root p.1 ∉ st.added) →
      (∀ p ∈ files, alistHas st.nidMap p.1 = false) →
      genPhase1Go root files st =
      { nodes := st.nodes ++ files.map (fun p => mkGNode (absPath root p.1) false),
        added := st.added ++ files.map (fun p => absPath root p.1),
        edges := st.edges,
        nidMap := st.nidMap ++ files.map (fun p => (p.1, absPath root p.1)) } := by
  intro files
  induction files with
  | nil =>
    intro st _ _ _
    simp [genPhase1Go]
  | cons p rest ih =>
    intro st hnd hfresh hnid
    have hpfresh : absPath root p.1 ∉ st.added := hfresh p (by simp)
    have hpnid : alistHas st.nidMap p.1 = false := hnid p (by simp)
    have hset : alistSet st.nidMap p.1 (absPath root p.1) =
        st.nidMap ++ [(p.1, absPath root p.1)] := by
      unfold alistSet
      rw [if_neg (by simp [hpnid])]
    have hadd : addNode st.nodes st.added (absPath root p.1) false =
        (st.nodes ++ [mkGNode (absPath root p.1) false],
         st.added ++ [absPath root p.1]) := by
      unfold addNode
      rw [if_neg hpfresh]
    have hkey : p.1 ∉ rest.map Prod.fst := by
      have h := hnd
      simp only [List.map_cons, List.nodup_cons] at h
      exact h.1
    simp only [genPhase1Go, hadd, hset]
    rw [ih _ (by simpa using hnd.of_cons) ?fr ?ni]
    · simp
    case fr =>
      intro q hq
      simp only [List.mem_append, List.mem_singleton]
      rintro (h1 | h2)
      · exact hfresh q (by simp [hq]) h1
      · exact hkey (by rw [← absPath_inj h2]; exact List.mem_map.mpr ⟨q, hq, rfl⟩)
    case ni =>
      intro q hq
      rw [alistHas_append, alistHas_singleton]
      have hq1 : alistHas st.nidMap q.1 = false := hnid q (by simp [hq])
      have hq2 : ¬ (p.1 = q.1) := by
        intro he
        exact hkey (he ▸ List.mem_map.mpr ⟨q, hq, rfl⟩)
      simp [hq1, hq2]

theorem genPhase1_spec (root : String) (files : Store)
    (hnd : (files.map Prod.fst).Nodup) :
    genPhase1 root files =
      { nodes := genFileNodes root files,
        added := files.map (fun p => absPath root p.1),
        edges := [],
        nidMap := files.map (fun p => (p.1, absPath root p.1)) } := by
  unfold genPhase1
  rw [genPhase1Go_spec root files _ hnd (by simp) (by simp [alistHas, alistGet])]
  simp [genFileNodes]

theorem genImports_spec (root : String) (files : Store) (sn : String) :
    ∀ (imps : List (String × String)) (st : GenSt),
      (∀ k, alistHas files k = true → absPath root k ∈ st.added) →
      genImports root files sn imps st =
        { st with edges := st.edges ++ imps.filterMap (fun imp =>
            match (resolve_module files imp.2).1 with
            | some tf =>
              if tf = "" then none
              else some { source := sn, target := absPath root tf }
            | none => none) } := by
  intro imps
  induction imps with
  | nil =>
    intro st _
    simp [genImports]
  | cons imp rest ih =>
    intro st h
    simp only [genImports]
    rcases hres : (resolve_module files imp.2).1 with _ | tf
    · rw [ih st h]
      simp only [List.filterMap_cons, hres]
    · show (if tf = "" then genImports root files sn rest st
        else genImports root files sn rest
          { st with nodes := (addNode st.nodes st.added (absPath root tf) false).1, added := (addNode st.nodes st.added (absPath root tf) false).2, edges := st.edges ++ [{ source := sn, target := absPath root tf }] }) = _
      by_cases hemp : tf = ""
      · rw [if_pos hemp, ih st h]
        simp only [List.filterMap_cons, hres, if_pos hemp]
      · rw [if_neg hemp]
        have htabs : absPath root tf ∈ st.added :=
          h tf (resolve_module_known hres)
        have hadd : addNode st.nodes st.added (absPath root tf) false =
            (st.nodes, st.added) := by
          unfold addNode
          rw [if_pos htabs]
        simp only [hadd]
        rw [ih { nodes := st.nodes, added := st.added, edges := st.edges ++ [{ source := sn, target := absPath root tf }], nidMap := st.nidMap } h]
        simp only [List.filterMap_cons, hres, if_neg hemp, List.append_assoc,
          List.singleton_append]

theorem genPhase2_spec (root : String) (files : Store)
    (hnd : (files.map Prod.fst).Nodup) :
    ∀ (todo : List (String × FileData)) (st : GenSt),
      (∀ p ∈ todo, p ∈ files) →
      (∀ k, alistHas files k = true → absPath root k ∈ st.added) →
      genPhase2 root files (files.map (fun p => (p.1, absPath root p.1))) todo st =
        { st with edges := st.edges ++ todo.flatMap (fun p =>
            p.2.imports.filterMap (fun imp =>
              match (resolve_module files imp.2).1 with
              | some tf =>
                if tf = "" then none
                else some { source := absPath root p.1, target := absPath root tf }
              | none => none)) } := by
  intro todo
  induction todo with
  | nil =>
    intro st _ _
    simp [genPhase2]
  | cons p rest ih =>
    intro st hmem h
    simp only [genPhase2]
    have hget : alistGet (files.map (fun p => (p.1, absPath root p.1))) p.1 =
        some (absPath root p.1) := by
      apply alistGet_of_nodup
      · have : (files.map (fun p => (p.1, absPath root p.1))).map Prod.fst =
            files.map Prod.fst := by
          simp [List.map_map]
        rw [this]
        exact hnd
      · exact List.mem_map.mpr ⟨p, hmem p (by simp), rfl⟩
    rw [hget]
    show genPhase2 root files (List.map (fun p => (p.1, absPath root p.1)) files) rest
      (if absPath root p.1 = "" then st
       else genImports root files (absPath root p.1) p.2.imports st) = _
    rw [if_neg (absPath_ne_empty root p.1)]
    rw [genImports_spec root files (absPath root p.1) p.2.imports st h]
    rw [ih { nodes := st.nodes, added := st.added, edges := st.edges ++ p.2.imports.filterMap (fun imp => match (resolve_module files imp.2).1 with | some tf => if tf = "" then none else some { source := absPath root p.1, target := absPath root tf } | none => none), nidMap := st.nidMap } (fun q hq => hmem q (by simp [hq])) h]
    simp [List.flatMap_cons, List.append_assoc]

theorem generate_spec (root : String) (files : Store)
    (hnd : (files.map Prod.fst).Nodup) :
    generate_dependency_graph root files =
      if (genFileNodes root files).length > 30 then
        aggregate_by_folder (genFileNodes root files) (genImportEdges root files)
      else Except.ok { nodes := genFileNodes root files,
                       edges := genImportEdges root files } := by
  unfold generate_dependency_graph
  rw [genPhase1_spec root files hnd]
  have hadded : ∀ k, alistHas files k = true →
      absPath root k ∈ files.map (fun p => absPath root p.1) := by
    intro k hk
    unfold alistHas at hk
    rcases hg : alistGet files k with _ | fd
    · rw [hg] at hk
      simp at hk
    · exact List.mem_map.mpr ⟨(k, fd), mem_of_alistGet hg, rfl⟩
  show (let s2 := genPhase2 root files (files.map (fun p => (p.1, absPath root p.1))) files { nodes := genFileNodes root files, added := files.map (fun p => absPath root p.1), edges := [], nidMap := files.map (fun p => (p.1, absPath root p.1)) }; if s2.nodes.length > 30 then aggregate_by_folder s2.nodes s2.edges else Except.ok { nodes := s2.nodes, edges := s2.edges }) = _
  simp only []
  rw [genPhase2_spec root files hnd files _ (fun p hp => hp) hadded]
  simp [genImportEdges]
theorem splitArrowAux_ne_nil : ∀ (xs cur : List Char), splitArrowAux xs cur ≠ [] := by
  intro xs
  induction xs with
  | nil =>
    intro cur
    simp [splitArrowAux]
  | cons c rest ih =>
    intro cur
    cases rest with
    | nil => simp [splitArrowAux]
    | cons d rest2 =>
      by_cases h : c = '-' ∧ d = '>'
      · simp [splitArrowAux, h]
      · simpa [splitArrowAux, h] using ih (c :: cur)

theorem splitArrowAux_append (ys : List Char) :
    ∀ (xs cur : List Char),
      splitArrowAux xs cur = [String.mk (cur.reverse ++ xs)] →
      splitArrowAux (xs ++ '-' :: '>' :: ys) cur =
        String.mk (cur.reverse ++ xs) :: splitArrowAux ys [] := by
  intro xs
  induction xs with
  | nil =>
    intro cur _
    simp [splitArrowAux]
  | cons c rest ih =>
    intro cur h
    cases rest with
    | nil =>
      have hd : ¬ (c = '-' ∧ '-' = '>') := by simp
      simp only [List.cons_append, List.nil_append, splitArrowAux, if_neg hd,
        if_pos (And.intro rfl rfl)]
      simp
    | cons d rest2 =>
      by_cases hcd : c = '-' ∧ d = '>'
      · exfalso
        rw [show splitArrowAux (c :: d :: rest2) cur =
            String.mk cur.reverse :: splitArrowAux rest2 [] from by
          simp [splitArrowAux, hcd]] at h
        have h2 : splitArrowAux rest2 ([] : List Char) = [] := (List.cons_eq_cons.mp h).2
        exact splitArrowAux_ne_nil rest2 [] h2
      · have h2 : splitArrowAux (d :: rest2) (c :: cur) =
            [String.mk ((c :: cur).reverse ++ (d :: rest2))] := by
          rw [show splitArrowAux (c :: d :: rest2) cur =
              splitArrowAux (d :: rest2) (c :: cur) from by
            simp [splitArrowAux, hcd]] at h
          rw [h]
          simp [List.reverse_cons, List.append_assoc]
        have h3 := ih (c :: cur) h2
        simp only [List.cons_append] at h3
        simp only [List.cons_append, splitArrowAux, if_neg hcd, List.append_eq]
        rw [h3]
        simp [List.reverse_cons, List.append_assoc]

theorem splitArrow_encode (sf tf : String) (hsf : splitArrow sf = [sf])
    (htf : splitArrow tf = [tf]) :
    splitArrow (sf ++ "->" ++ tf) = [sf, tf] := by
  unfold splitArrow at hsf htf ⊢
  have hdata : (sf ++ "->" ++ tf).data = sf.data ++ '-' :: '>' :: tf.data := by
    simp [String.data_append]
  rw [hdata]
  have h1 : splitArrowAux sf.data ([] : List Char) =
      [String.mk (([] : List Char).reverse ++ sf.data)] := by
    simpa using hsf
  rw [splitArrowAux_append tf.data sf.data [] h1]
  rw [htf]
  simp

theorem alistSet_values {α : Type} (P : α → Prop) {l : List (String × α)}
    {k : String} {v : α} (hl : ∀ kv ∈ l, P kv.2) (hv : P v) :
    ∀ kv ∈ alistSet l k v, P kv.2 := by
  intro kv hm
  unfold alistSet at hm
  split at hm
  · obtain ⟨p, hp, he⟩ := List.mem_map.mp hm
    by_cases hpk : p.1 = k
    · rw [if_pos hpk] at he
      rw [← he]
      exact hv
    · rw [if_neg hpk] at he
      rw [← he]
      exact hl p hp
  · rcases List.mem_append.mp hm with h1 | h2
    · exact hl kv h1
    · rw [List.mem_singleton] at h2
      rw [h2]
      exact hv
theorem aggNodes_inv (P : String → Prop) :
    ∀ (nodes : List GNode) (st : AggSt),
      (∀ n ∈ nodes, GNode.type n = "file") →
      (∀ n ∈ nodes, P (parentDir n.id)) →
      (∀ q ∈ st.folder_nodes, GNode.type q.2 = "folder") →
      (∀ kv ∈ st.f2f, P kv.2) →
      (∀ q ∈ (aggNodes nodes st).folder_nodes, GNode.type q.2 = "folder") ∧
      (∀ kv ∈ (aggNodes nodes st).f2f, P kv.2) := by
  intro nodes
  induction nodes with
  | nil =>
    intro st _ _ h1 h2
    exact ⟨h1, h2⟩
  | cons n rest ih =>
    intro st hfile hP h1 h2
    have hext : ¬ (GNode.type n = "external") := by
      rw [hfile n (by simp)]
      decide
    simp only [aggNodes, if_neg hext]
    apply ih
    · intro m hm
      exact hfile m (by simp [hm])
    · intro m hm
      exact hP m (by simp [hm])
    · intro q hq
      by_cases hh : alistHas st.folder_nodes (parentDir n.id)
      · rw [if_pos hh] at hq
        exact h1 q hq
      · rw [if_neg hh] at hq
        rcases List.mem_append.mp hq with hq1 | hq2
        · exact h1 q hq1
        · rw [List.mem_singleton] at hq2
          rw [hq2]
    · exact alistSet_values P h2 (hP n (by simp))

/-- The shape of every string in the `folder_edges` set: an encoding of
two distinct separator-free folder ids. -/
def EncOk (s : String) : Prop :=
  ∃ sf tf, s = sf ++ "->" ++ tf ∧ splitArrow sf = [sf] ∧
    splitArrow tf = [tf] ∧ sf ≠ tf

theorem aggEdges_inv (f2f : List (String × String))
    (hv : ∀ kv ∈ f2f, splitArrow kv.2 = [kv.2]) :
    ∀ (es : List GEdge) (fes : List String),
      fes.Nodup → (∀ s ∈ fes, EncOk s) →
      (aggEdges f2f es fes).Nodup ∧ (∀ s ∈ aggEdges f2f es fes, EncOk s) := by
  intro es
  induction es with
  | nil =>
    intro fes h1 h2
    exact ⟨h1, h2⟩
  | cons e rest ih =>
    intro fes h1 h2
    simp only [aggEdges]
    rcases hs : alistGet f2f (GEdge.source e) with _ | sf
    · exact ih fes h1 h2
    · rcases ht : alistGet f2f (GEdge.target e) with _ | tf
      · exact ih fes h1 h2
      · show (if sf ≠ "" ∧ tf ≠ "" ∧ sf ≠ tf then aggEdges f2f rest (if sf ++ "->" ++ tf ∈ fes then fes else fes ++ [sf ++ "->" ++ tf]) else aggEdges f2f rest fes).Nodup ∧ ∀ s ∈ (if sf ≠ "" ∧ tf ≠ "" ∧ sf ≠ tf then aggEdges f2f rest (if sf ++ "->" ++ tf ∈ fes then fes else fes ++ [sf ++ "->" ++ tf]) else aggEdges f2f rest fes), EncOk s
        by_cases hc : sf ≠ "" ∧ tf ≠ "" ∧ sf ≠ tf
        · rw [if_pos hc]
          by_cases hmem : (sf ++ "->" ++ tf) ∈ fes
          · rw [if_pos hmem]
            exact ih fes h1 h2
          · rw [if_neg hmem]
            apply ih
            · simp [List.nodup_append, h1, hmem]
            · intro x hx
              rcases List.mem_append.mp hx with hx1 | hx2
              · exact h2 x hx1
              · rw [List.mem_singleton] at hx2
                rw [hx2]
                exact ⟨sf, tf, rfl, hv _ (mem_of_alistGet hs),
                  hv _ (mem_of_alistGet ht), hc.2.2⟩
        · rw [if_neg hc]
          exact ih fes h1 h2

theorem decodeEdges_ok :
    ∀ fes : List String, (∀ s ∈ fes, EncOk s) →
      ∃ ges, decodeEdges fes = Except.ok ges ∧
        ges.map (fun e => GEdge.source e ++ "->" ++ GEdge.target e) = fes ∧
        (∀ e ∈ ges, GEdge.source e ≠ GEdge.target e) := by
  intro fes
  induction fes with
  | nil =>
    intro _
    exact ⟨[], rfl, rfl, by simp⟩
  | cons s rest ih =>
    intro h
    obtain ⟨sf, tf, hse, hsf, htf, hne⟩ := h s (by simp)
    obtain ⟨ges, hok, hmap, hdist⟩ := ih (fun x hx => h x (by simp [hx]))
    refine ⟨{ source := sf, target := tf } :: ges, ?_, ?_, ?_⟩
    · simp only [decodeEdges]
      rw [hse, splitArrow_encode sf tf hsf htf, hok]
    · simp [hmap, hse]
    · intro e he
      rcases List.mem_cons.mp he with he1 | he2
      · rw [he1]
        exact hne
      · exact hdist e he2

theorem aggregate_spec (nodes : List GNode) (edges : List GEdge)
    (hfile : ∀ n ∈ nodes, GNode.type n = "file")
    (harrow : ∀ n ∈ nodes, splitArrow (parentDir n.id) = [parentDir n.id]) :
    ∃ g, aggregate_by_folder nodes edges = Except.ok g ∧
      (∀ n ∈ g.nodes, GNode.type n = "folder") ∧
      g.edges.Nodup ∧
      (∀ e ∈ g.edges, GEdge.source e ≠ GEdge.target e) := by
  obtain ⟨hfolders, hvals⟩ := aggNodes_inv (fun v => splitArrow v = [v]) nodes
    { folder_nodes := [], f2f := [] } hfile harrow (by simp) (by simp)
  obtain ⟨hnd, henc⟩ := aggEdges_inv (aggNodes nodes { folder_nodes := [], f2f := [] }).f2f
    hvals edges [] (by simp) (by simp)
  obtain ⟨ges, hok, hmap, hdist⟩ := decodeEdges_ok _ henc
  refine ⟨{ nodes := (aggNodes nodes { folder_nodes := [], f2f := [] }).folder_nodes.map Prod.snd, edges := ges }, ?_, ?_, ?_, ?_⟩
  · unfold aggregate_by_folder
    simp only []
    rw [hok]
  · intro n hn
    obtain ⟨q, hq, he⟩ := List.mem_map.mp hn
    rw [← he]
    exact hfolders q hq
  · have : (ges.map (fun e => GEdge.source e ++ "->" ++ GEdge.target e)).Nodup := by
      rw [hmap]
      exact hnd
    exact this.of_map
  · exact hdist
set_option maxHeartbeats 1000000 in
/-- C8 (corrected).  First conjunct: for every root and every fact store
with unique file keys, the generated graph has exactly one `"file"` node
per scanned file (in scan order) and one edge per import the resolver
maps to a known file — unresolved imports contribute neither node nor
edge — and the aggregation pass runs exactly when the node count exceeds
30.  Second conjunct: the aggregation pass, on file-typed nodes whose
parent directories are free of the `"->"` separator, returns a graph in
which every node has type `"folder"`, edges are duplicate-free by
(source, target), and no edge joins a folder to itself.  (Without the
separator-freedom proviso the pass can instead raise `ValueError` — see
the counterexample.) -/
theorem C8_graph :
    (∀ (root : String) (files : Store), (files.map Prod.fst).Nodup →
      generate_dependency_graph root files =
        if (genFileNodes root files).length > 30 then
          aggregate_by_folder (genFileNodes root files) (genImportEdges root files)
        else Except.ok { nodes := genFileNodes root files,
                         edges := genImportEdges root files }) ∧
    (∀ (nodes : List GNode) (edges : List GEdge),
      (∀ n ∈ nodes, GNode.type n = "file") →
      (∀ n ∈ nodes, splitArrow (parentDir n.id) = [parentDir n.id]) →
      ∃ g, aggregate_by_folder nodes edges = Except.ok g ∧
        (∀ n ∈ g.nodes, GNode.type n = "folder") ∧
        g.edges.Nodup ∧
        (∀ e ∈ g.edges, GEdge.source e ≠ GEdge.target e)) :=
  ⟨generate_spec, aggregate_spec⟩

/-- Filler files to push the C8 stores over the 30-node threshold. -/
def c8fill : Store :=
  (List.range 29).map (fun i =>
    let k := "f" ++ String.mk (List.replicate i 'a') ++ ".py"
    (k, fdOf k))

/-- A file inside the (legal) directory name `a->b`, plus a file that
imports it from another folder. -/
def c8arrowImports : FileData := { file_path := "c/n.py", imports := [("m", "a->b.m")] }

/-- 31 scanned files, one of them inside a directory whose name contains
the `"->"` the aggregation uses as its edge separator. -/
def c8badStore : Store :=
  [("a->b/m.py", fdOf "a->b/m.py"), ("c/n.py", c8arrowImports)] ++ c8fill

set_option maxRecDepth 4096 in
/-- Counterexample to C8: the 31-file tree exceeds the threshold, so the
graph is folder-aggregated, but the folder id `/r/a->b` contains the edge
separator: `src, dst = edge_str.split("->")` gets three pieces and the
whole call raises `ValueError` instead of returning a folder graph. -/
theorem C8_counterexample :
    c8badStore.length = 31 ∧
    generate_dependency_graph "/r" c8badStore =
      Except.error "ValueError: edge unpack in aggregate_by_folder" :=
  ⟨rfl, rfl⟩

/-- A 40-file tree: 20 files under `a/`, 20 under `b/`, with one
cross-folder import. -/
def c8goodStore : Store :=
  ((List.range 20).map (fun i =>
    let k := "a/f" ++ String.mk (List.replicate i 'x') ++ ".py"
    (k, fdOf k))) ++
  ((List.range 20).map (fun i =>
    let k := "b/g" ++ String.mk (List.replicate i 'x') ++ ".py"
    if i = 0 then (k, { file_path := k, imports := [("f", "a.f")] })
    else (k, fdOf k)))

set_option maxRecDepth 8192 in
/-- Witness for C8: at the 40-file store the characterization applies
(40 > 30, so the aggregation branch is taken), and the aggregation
succeeds with an all-folder graph. -/
theorem C8_graph_witness :
    (generate_dependency_graph "/r" c8goodStore =
      if (genFileNodes "/r" c8goodStore).length > 30 then
        aggregate_by_folder (genFileNodes "/r" c8goodStore)
          (genImportEdges "/r" c8goodStore)
      else Except.ok { nodes := genFileNodes "/r" c8goodStore,
                       edges := genImportEdges "/r" c8goodStore }) ∧
    (∃ g, aggregate_by_folder (genFileNodes "/r" c8goodStore)
        (genImportEdges "/r" c8goodStore) = Except.ok g ∧
      (∀ n ∈ g.nodes, GNode.type n = "folder") ∧
      g.edges.Nodup ∧
      (∀ e ∈ g.edges, GEdge.source e ≠ GEdge.target e)) :=
  ⟨C8_graph.1 "/r" c8goodStore (by decide),
   C8_graph.2 (genFileNodes "/r" c8goodStore) (genImportEdges "/r" c8goodStore)
     (by decide) (by decide)⟩

end ApiViz

